import Mathlib

/-!
Verification of the CRYPTO1 stream-cipher engine of the ChameleonUltra
firmware.  The definitions below are shallow embeddings of the C sources:

* `src/unnamed/part_003` — the packed `struct Crypto1State` implementation
  (`crypto1_init`, `crypto1_get_lfsr`, `crypto1_bit`, `crypto1_byte`,
  `crypto1_word`, `prng_successor`);
* `src/firmware/application/src/rfid/mf1_crapto1.h` — the bit-math `filter`
  and the polynomial constants;
* `src/firmware/application/src/rfid/mf1_crypto1.c` — the byte-split
  table-driven implementation (`Crypto1Setup`, `Crypto1SetupNested`,
  `Crypto1Auth`, `Crypto1PRNG`, filter tables);
* `src/firmware/application/src/rfid/parity.h` — parity helpers.

Machine integers are embedded as `Nat` with explicit `% 2^w` (or masks)
exactly where the C computation can overflow its fixed width.
-/

namespace Crypto1

/-- `BIT(x, n)` macro of mf1_crapto1.h: `((x) >> (n)) & 1`. -/
def bit (x n : Nat) : Nat := (x >>> n) &&& 1

/-- `LF_POLY_ODD` of mf1_crapto1.h. -/
def LF_POLY_ODD : Nat := 0x29CE5C

/-- `LF_POLY_EVEN` of mf1_crapto1.h. -/
def LF_POLY_EVEN : Nat := 0x870804

/-- `evenparity32` of parity.h: `__builtin_parity(x)`, the XOR of the 32 bits
of the argument (a `uint32_t`). -/
def evenparity32 (x : Nat) : Nat :=
  (List.range 32).foldl (fun a i => a ^^^ bit x i) 0

/-- Modelled from the spec: `oddparity8` of parity.h is a lookup in the
`OddByteParity` table, whose defining file is not under src; its doc comment
states it returns 1 iff the byte has an even number of 1-bits (so that adding
the bit yields odd overall parity). -/
def oddparity8 (x : Nat) : Nat :=
  ((List.range 8).foldl (fun a i => a ^^^ bit x i) 0) ^^^ 1

/-- The five-bit table index `f` computed by the bit-math `filter` of
mf1_crapto1.h (lines 173-182). -/
def filterIdx (x : Nat) : Nat :=
  let f := (0xf22c0 >>> (x &&& 0xf)) &&& 16
  let f := f ||| ((0x6c9c0 >>> ((x >>> 4) &&& 0xf)) &&& 8)
  let f := f ||| ((0x3c8b0 >>> ((x >>> 8) &&& 0xf)) &&& 4)
  let f := f ||| ((0x1e458 >>> ((x >>> 12) &&& 0xf)) &&& 2)
  f ||| ((0x0d938 >>> ((x >>> 16) &&& 0xf)) &&& 1)

/-- The bit-math `filter` of mf1_crapto1.h (lines 173-182):
`BIT(0xEC57E80A, f)`. -/
def filter (x : Nat) : Nat := bit 0xEC57E80A (filterIdx x)

/-- `struct Crypto1State`: two `uint32_t` halves. -/
structure Crypto1State where
  odd : Nat
  even : Nat
deriving DecidableEq, Repr

/-- `crypto1_bit` of part_003 (lines 97-113).  `in` is a `uint8_t` (the code
uses `!!in`), `is_encrypted` an `int` flag embedded as `Bool`.  The
`uint32_t` store of `t << 1 | parity` is truncated modulo `2^32`. -/
def crypto1_bit (s : Crypto1State) (inb : Nat) (enc : Bool) : Nat × Crypto1State :=
  let ret := filter s.odd
  let feedin := ret &&& (if enc then 1 else 0)
  let feedin := feedin ^^^ (if inb = 0 then 0 else 1)
  let feedin := feedin ^^^ (LF_POLY_ODD &&& s.odd)
  let feedin := feedin ^^^ (LF_POLY_EVEN &&& s.even)
  let t := s.odd
  (ret, ⟨s.even, ((t <<< 1) ||| evenparity32 feedin) % 4294967296⟩)

/-- Loop body of `crypto1_init`: shift key bit `(i-1)^7` into `odd` and key
bit `i^7` into `even`. -/
def initStep (key : Nat) (st : Crypto1State) (i : Nat) : Crypto1State :=
  ⟨(st.odd <<< 1) ||| bit key ((i - 1) ^^^ 7),
   (st.even <<< 1) ||| bit key (i ^^^ 7)⟩

/-- `crypto1_init` of part_003 (lines 32-44): load key bits for
`i = 47, 45, ..., 1`. -/
def crypto1_init (key : Nat) : Crypto1State :=
  ((List.range 24).map (fun k => 47 - 2 * k)).foldl (initStep key) ⟨0, 0⟩

/-- Loop body of `crypto1_get_lfsr`: shift in bit `i^3` of `odd`, then bit
`i^3` of `even`. -/
def getStep (s : Crypto1State) (l i : Nat) : Nat :=
  (((l <<< 1) ||| bit s.odd (i ^^^ 3)) <<< 1) ||| bit s.even (i ^^^ 3)

/-- `crypto1_get_lfsr` of part_003 (lines 82-88): read the 48-bit value back
for `i = 23, ..., 0`. -/
def crypto1_get_lfsr (s : Crypto1State) : Nat :=
  ((List.range 24).map (fun k => 23 - k)).foldl (getStep s) 0

/-- `crypto1_byte` of part_003 (lines 122-132). -/
def crypto1_byte (s : Crypto1State) (inb : Nat) (enc : Bool) : Nat × Crypto1State :=
  (List.range 8).foldl
    (fun p i =>
      let r := crypto1_bit p.2 (bit inb i) enc
      (p.1 ||| (r.1 <<< i), r.2))
    (0, s)

/-- `crypto1_word` of part_003 (lines 141-150); `BEBIT(x, i) = BIT(x, i ^ 24)`
and the output bit goes to position `(24 ^ i) & 0x1F`. -/
def crypto1_word (s : Crypto1State) (inw : Nat) (enc : Bool) : Nat × Crypto1State :=
  (List.range 32).foldl
    (fun p i =>
      let r := crypto1_bit p.2 (bit inw (i ^^^ 24)) enc
      (p.1 ||| (r.1 <<< ((24 ^^^ i) &&& 0x1F)), r.2))
    (0, s)

/-- `__REV`: byte swap of a `uint32_t`. -/
def rev32 (x : Nat) : Nat :=
  ((x &&& 0xFF) <<< 24) ||| ((x &&& 0xFF00) <<< 8) |||
  ((x >>> 8) &&& 0xFF00) ||| ((x >>> 24) &&& 0xFF)

/-- One iteration of the PRNG loop body of `prng_successor` (part_003 line
165): `x = x >> 1 | (x >> 16 ^ x >> 18 ^ x >> 19 ^ x >> 21) << 31`, in
`uint32_t` arithmetic. -/
def prngStep (x : Nat) : Nat :=
  (x >>> 1) ||| ((((x >>> 16) ^^^ (x >>> 18) ^^^ (x >>> 19) ^^^ (x >>> 21)) <<< 31) % 4294967296)

/-- `n` iterations of `prngStep`. -/
def prngIter : Nat → Nat → Nat
  | 0, x => x
  | n + 1, x => prngIter n (prngStep x)

/-- `prng_successor` of part_003 (lines 158-180), with its `n == 1` and
`n == 16` fast paths and the general `while (n--)` loop. -/
def prng_successor (x n : Nat) : Nat :=
  let y := rev32 x
  rev32 (if n = 1 then prngStep y else if n = 16 then prngIter 16 y else prngIter n y)

/-- The reference definition of the PRNG successor given by the spec:
byte-swap, apply the single step `n` times, byte-swap back. -/
def prng_ref (x n : Nat) : Nat := rev32 (prngIter n (rev32 x))

/-- The composition of 32 sequential `crypto1_bit` calls in MIFARE big-endian
bit order, as the spec describes the word clock: the i-th call receives bit
`24 XOR i` of the input word and its returned bit is placed at position
`24 XOR i` of the result. -/
def seqWord (inw : Nat) (enc : Bool) : List Nat → Crypto1State → Nat × Crypto1State
  | [], s => (0, s)
  | i :: r, s =>
    let x := crypto1_bit s (bit inw (24 ^^^ i)) enc
    let y := seqWord inw enc r x.2
    ((x.1 <<< (24 ^^^ i)) ||| y.1, y.2)

/-- Modelled from the spec: `lfsr_rollback_bit` is declared in mf1_crapto1.h
(lines 119-137) but its implementation is not under src.  Per spec section 4.3
it "inverts the clock exactly": the forward clock of part_003 sets
`odd' = even` and `even' = odd << 1 | feedback`, so the pre-state is
recovered by `odd = even' >> 1`, `even = odd'`, and the returned bit is the
filter output of the recovered odd half (what the forward clock emitted). -/
def lfsr_rollback_bit (s : Crypto1State) (inb : Nat) (fb : Bool) : Nat × Crypto1State :=
  let _ := inb
  let _ := fb
  let odd := s.even >>> 1
  let even := s.odd
  (filter odd, ⟨odd, even⟩)

/-- Modelled from the spec: `lfsr_rollback_byte` (declared in mf1_crapto1.h,
implementation not under src) iterates `lfsr_rollback_bit` in reverse bit
order, `i = 7, ..., 0`, feeding bit `i` of the input and placing the returned
bit at position `i`. -/
def lfsr_rollback_byte (s : Crypto1State) (inb : Nat) (fb : Bool) : Nat × Crypto1State :=
  ((List.range 8).reverse).foldl
    (fun p i =>
      let r := lfsr_rollback_bit p.2 (bit inb i) fb
      (p.1 ||| (r.1 <<< i), r.2))
    (0, s)

/-- Modelled from the spec: `lfsr_rollback_word` (declared in mf1_crapto1.h,
implementation not under src) iterates `lfsr_rollback_bit` in reverse MIFARE
bit order, `i = 31, ..., 0`, feeding bit `i ^ 24` of the input and placing
the returned bit at position `i ^ 24`. -/
def lfsr_rollback_word (s : Crypto1State) (inw : Nat) (fb : Bool) : Nat × Crypto1State :=
  ((List.range 32).reverse).foldl
    (fun p i =>
      let r := lfsr_rollback_bit p.2 (bit inw (i ^^^ 24)) fb
      (p.1 ||| (r.1 <<< (i ^^^ 24)), r.2))
    (0, s)

/-- Forward clocking of a list of input bits through `crypto1_bit`,
returning the emitted bits in order together with the final state. -/
def fwdList (enc : Bool) : Crypto1State → List Nat → List Nat × Crypto1State
  | s, [] => ([], s)
  | s, b :: r =>
    let x := crypto1_bit s b enc
    let y := fwdList enc x.2 r
    (x.1 :: y.1, y.2)

/-- Rolling back a list of input bits (last bit first) through
`lfsr_rollback_bit`, returning the emitted bits in forward order together
with the recovered state. -/
def bwdList (fb : Bool) : Crypto1State → List Nat → List Nat × Crypto1State
  | s, [] => ([], s)
  | s, b :: r =>
    let y := bwdList fb s r
    let x := lfsr_rollback_bit y.2 b fb
    (x.1 :: y.1, x.2)

/-- Assemble output bits at the given shift positions. -/
def packAt : List Nat → List Nat → Nat
  | i :: is, o :: os => (o <<< i) ||| packAt is os
  | _, _ => 0

/-- The forward clock is invertible along a bit list as long as the odd half
stays below `2^31` at every step (no bit is shifted out of the `uint32_t`). -/
def okB (enc : Bool) : Crypto1State → List Nat → Prop
  | _, [] => True
  | s, b :: r => s.odd < 2 ^ 31 ∧ okB enc (crypto1_bit s b enc).2 r

/-- Bound schedule for `okB`: starting from halves below `2^a` and `2^b`,
each clock turns the bounds `(a, b)` into `(b, a+1)`; invertibility needs
`a ≤ 31` at every step. -/
def boundsOk : Nat → Nat → Nat → Prop
  | _, _, 0 => True
  | a, b, n + 1 => a ≤ 31 ∧ boundsOk b (a + 1) n

/-- One chunk of the optimized PRNG of mf1_crypto1.c (`Crypto1PRNG`, lines
829-848): fold the top 16 bits with `F ^= F >> 3; F ^= F >> 2` and shift the
register down by `k` (11 or 10) bits, feeding `F`'s low `k` bits in at the
top (`uint32_t` truncation of `F << (32-k)`). -/
def prngChunk (k : Nat) (x : Nat) : Nat :=
  let F := (x >>> 16) &&& 0xFFFF
  let F := F ^^^ (F >>> 3)
  let F := F ^^^ (F >>> 2)
  (x >>> k) ||| ((F <<< (32 - k)) % 4294967296)

/-- One 32-clock block of `Crypto1PRNG`: chunks of 11 + 11 + 10 bits. -/
def prngBlock (x : Nat) : Nat := prngChunk 10 (prngChunk 11 (prngChunk 11 x))

/-- The `while (ClockCount >= 32)` loop of `Crypto1PRNG`. -/
def prngLoop (cc x : Nat) : Nat :=
  if 32 ≤ cc then prngLoop (cc - 32) (prngBlock x) else x
termination_by cc
decreasing_by omega

/-- `Crypto1PRNG` of mf1_crypto1.c (lines 821-858): read the 4 state bytes
little-endian into a `uint32_t`, run the chunked loop, write the bytes back. -/
def Crypto1PRNG (s0 s1 s2 s3 cc : Nat) : Nat × Nat × Nat × Nat :=
  let t := s0 ||| (s1 <<< 8) ||| (s2 <<< 16) ||| (s3 <<< 24)
  let t := prngLoop cc t
  (t &&& 0xFF, (t >>> 8) &&& 0xFF, (t >>> 16) &&& 0xFF, (t >>> 24) &&& 0xFF)

/-! ### Byte-split implementation of mf1_crypto1.c -/

/-- `FA` of mf1_crypto1.c (filter sub-function, arguments are single bits). -/
def FA (x3 x2 x1 x0 : Nat) : Nat :=
  ((x0 ||| x1) ^^^ (x0 &&& x3)) ^^^ (x2 &&& ((x0 ^^^ x1) ||| x3))

/-- `FB` of mf1_crypto1.c. -/
def FB (x3 x2 x1 x0 : Nat) : Nat :=
  ((x0 &&& x1) ||| x2) ^^^ ((x0 ^^^ x1) &&& (x2 ||| x3))

/-- `FC` of mf1_crypto1.c. -/
def FC (x4 x3 x2 x1 x0 : Nat) : Nat :=
  (x0 ||| ((x1 ||| x4) &&& (x3 ^^^ x4))) ^^^ ((x0 ^^^ (x1 &&& x3)) &&& ((x2 ^^^ x3) ||| (x1 &&& x4)))

/-- `abFilterTable[0]` of mf1_crypto1.c. -/
def abFilterTable0 : List Nat := [
  0x00, 0x00, 0x00, 0x00, 0x00, 0x00, 0x00, 0x00, 0x00, 0x00, 0x00, 0x00, 0x00, 0x00, 0x00, 0x00,
  0x01, 0x01, 0x01, 0x01, 0x01, 0x01, 0x01, 0x01, 0x01, 0x01, 0x01, 0x01, 0x01, 0x01, 0x01, 0x01,
  0x01, 0x01, 0x01, 0x01, 0x01, 0x01, 0x01, 0x01, 0x01, 0x01, 0x01, 0x01, 0x01, 0x01, 0x01, 0x01,
  0x01, 0x01, 0x01, 0x01, 0x01, 0x01, 0x01, 0x01, 0x01, 0x01, 0x01, 0x01, 0x01, 0x01, 0x01, 0x01,
  0x00, 0x00, 0x00, 0x00, 0x00, 0x00, 0x00, 0x00, 0x00, 0x00, 0x00, 0x00, 0x00, 0x00, 0x00, 0x00,
  0x00, 0x00, 0x00, 0x00, 0x00, 0x00, 0x00, 0x00, 0x00, 0x00, 0x00, 0x00, 0x00, 0x00, 0x00, 0x00,
  0x00, 0x00, 0x00, 0x00, 0x00, 0x00, 0x00, 0x00, 0x00, 0x00, 0x00, 0x00, 0x00, 0x00, 0x00, 0x00,
  0x01, 0x01, 0x01, 0x01, 0x01, 0x01, 0x01, 0x01, 0x01, 0x01, 0x01, 0x01, 0x01, 0x01, 0x01, 0x01,
  0x00, 0x00, 0x00, 0x00, 0x00, 0x00, 0x00, 0x00, 0x00, 0x00, 0x00, 0x00, 0x00, 0x00, 0x00, 0x00,
  0x00, 0x00, 0x00, 0x00, 0x00, 0x00, 0x00, 0x00, 0x00, 0x00, 0x00, 0x00, 0x00, 0x00, 0x00, 0x00,
  0x01, 0x01, 0x01, 0x01, 0x01, 0x01, 0x01, 0x01, 0x01, 0x01, 0x01, 0x01, 0x01, 0x01, 0x01, 0x01,
  0x00, 0x00, 0x00, 0x00, 0x00, 0x00, 0x00, 0x00, 0x00, 0x00, 0x00, 0x00, 0x00, 0x00, 0x00, 0x00,
  0x01, 0x01, 0x01, 0x01, 0x01, 0x01, 0x01, 0x01, 0x01, 0x01, 0x01, 0x01, 0x01, 0x01, 0x01, 0x01,
  0x01, 0x01, 0x01, 0x01, 0x01, 0x01, 0x01, 0x01, 0x01, 0x01, 0x01, 0x01, 0x01, 0x01, 0x01, 0x01,
  0x00, 0x00, 0x00, 0x00, 0x00, 0x00, 0x00, 0x00, 0x00, 0x00, 0x00, 0x00, 0x00, 0x00, 0x00, 0x00,
  0x01, 0x01, 0x01, 0x01, 0x01, 0x01, 0x01, 0x01, 0x01, 0x01, 0x01, 0x01, 0x01, 0x01, 0x01, 0x01]

/-- `abFilterTable[1]` of mf1_crypto1.c. -/
def abFilterTable1 : List Nat := [
  0x00, 0x00, 0x00, 0x02, 0x02, 0x00, 0x00, 0x02, 0x00, 0x02, 0x02, 0x02, 0x02, 0x00, 0x00, 0x02,
  0x00, 0x00, 0x00, 0x02, 0x02, 0x00, 0x00, 0x02, 0x00, 0x02, 0x02, 0x02, 0x02, 0x00, 0x00, 0x02,
  0x00, 0x00, 0x00, 0x02, 0x02, 0x00, 0x00, 0x02, 0x00, 0x02, 0x02, 0x02, 0x02, 0x00, 0x00, 0x02,
  0x04, 0x04, 0x04, 0x06, 0x06, 0x04, 0x04, 0x06, 0x04, 0x06, 0x06, 0x06, 0x06, 0x04, 0x04, 0x06,
  0x04, 0x04, 0x04, 0x06, 0x06, 0x04, 0x04, 0x06, 0x04, 0x06, 0x06, 0x06, 0x06, 0x04, 0x04, 0x06,
  0x00, 0x00, 0x00, 0x02, 0x02, 0x00, 0x00, 0x02, 0x00, 0x02, 0x02, 0x02, 0x02, 0x00, 0x00, 0x02,
  0x00, 0x00, 0x00, 0x02, 0x02, 0x00, 0x00, 0x02, 0x00, 0x02, 0x02, 0x02, 0x02, 0x00, 0x00, 0x02,
  0x04, 0x04, 0x04, 0x06, 0x06, 0x04, 0x04, 0x06, 0x04, 0x06, 0x06, 0x06, 0x06, 0x04, 0x04, 0x06,
  0x00, 0x00, 0x00, 0x02, 0x02, 0x00, 0x00, 0x02, 0x00, 0x02, 0x02, 0x02, 0x02, 0x00, 0x00, 0x02,
  0x04, 0x04, 0x04, 0x06, 0x06, 0x04, 0x04, 0x06, 0x04, 0x06, 0x06, 0x06, 0x06, 0x04, 0x04, 0x06,
  0x04, 0x04, 0x04, 0x06, 0x06, 0x04, 0x04, 0x06, 0x04, 0x06, 0x06, 0x06, 0x06, 0x04, 0x04, 0x06,
  0x04, 0x04, 0x04, 0x06, 0x06, 0x04, 0x04, 0x06, 0x04, 0x06, 0x06, 0x06, 0x06, 0x04, 0x04, 0x06,
  0x04, 0x04, 0x04, 0x06, 0x06, 0x04, 0x04, 0x06, 0x04, 0x06, 0x06, 0x06, 0x06, 0x04, 0x04, 0x06,
  0x00, 0x00, 0x00, 0x02, 0x02, 0x00, 0x00, 0x02, 0x00, 0x02, 0x02, 0x02, 0x02, 0x00, 0x00, 0x02,
  0x00, 0x00, 0x00, 0x02, 0x02, 0x00, 0x00, 0x02, 0x00, 0x02, 0x02, 0x02, 0x02, 0x00, 0x00, 0x02,
  0x04, 0x04, 0x04, 0x06, 0x06, 0x04, 0x04, 0x06, 0x04, 0x06, 0x06, 0x06, 0x06, 0x04, 0x04, 0x06]

/-- `abFilterTable[2]` of mf1_crypto1.c. -/
def abFilterTable2 : List Nat := [
  0x00, 0x08, 0x08, 0x08, 0x00, 0x00, 0x00, 0x08, 0x00, 0x00, 0x08, 0x00, 0x08, 0x08, 0x00, 0x08,
  0x00, 0x08, 0x08, 0x08, 0x00, 0x00, 0x00, 0x08, 0x00, 0x00, 0x08, 0x00, 0x08, 0x08, 0x00, 0x08,
  0x00, 0x08, 0x08, 0x08, 0x00, 0x00, 0x00, 0x08, 0x00, 0x00, 0x08, 0x00, 0x08, 0x08, 0x00, 0x08,
  0x10, 0x18, 0x18, 0x18, 0x10, 0x10, 0x10, 0x18, 0x10, 0x10, 0x18, 0x10, 0x18, 0x18, 0x10, 0x18,
  0x10, 0x18, 0x18, 0x18, 0x10, 0x10, 0x10, 0x18, 0x10, 0x10, 0x18, 0x10, 0x18, 0x18, 0x10, 0x18,
  0x00, 0x08, 0x08, 0x08, 0x00, 0x00, 0x00, 0x08, 0x00, 0x00, 0x08, 0x00, 0x08, 0x08, 0x00, 0x08,
  0x00, 0x08, 0x08, 0x08, 0x00, 0x00, 0x00, 0x08, 0x00, 0x00, 0x08, 0x00, 0x08, 0x08, 0x00, 0x08,
  0x10, 0x18, 0x18, 0x18, 0x10, 0x10, 0x10, 0x18, 0x10, 0x10, 0x18, 0x10, 0x18, 0x18, 0x10, 0x18,
  0x00, 0x08, 0x08, 0x08, 0x00, 0x00, 0x00, 0x08, 0x00, 0x00, 0x08, 0x00, 0x08, 0x08, 0x00, 0x08,
  0x10, 0x18, 0x18, 0x18, 0x10, 0x10, 0x10, 0x18, 0x10, 0x10, 0x18, 0x10, 0x18, 0x18, 0x10, 0x18,
  0x10, 0x18, 0x18, 0x18, 0x10, 0x10, 0x10, 0x18, 0x10, 0x10, 0x18, 0x10, 0x18, 0x18, 0x10, 0x18,
  0x10, 0x18, 0x18, 0x18, 0x10, 0x10, 0x10, 0x18, 0x10, 0x10, 0x18, 0x10, 0x18, 0x18, 0x10, 0x18,
  0x10, 0x18, 0x18, 0x18, 0x10, 0x10, 0x10, 0x18, 0x10, 0x10, 0x18, 0x10, 0x18, 0x18, 0x10, 0x18,
  0x00, 0x08, 0x08, 0x08, 0x00, 0x00, 0x00, 0x08, 0x00, 0x00, 0x08, 0x00, 0x08, 0x08, 0x00, 0x08,
  0x00, 0x08, 0x08, 0x08, 0x00, 0x00, 0x00, 0x08, 0x00, 0x00, 0x08, 0x00, 0x08, 0x08, 0x00, 0x08,
  0x10, 0x18, 0x18, 0x18, 0x10, 0x10, 0x10, 0x18, 0x10, 0x10, 0x18, 0x10, 0x18, 0x18, 0x10, 0x18]

/-- `TableC0` of mf1_crypto1.c: `FC` over the five index bits (first argument = bit 4). -/
def TableC0 : List Nat := [
  FC 0 0 0 0 0, FC 0 0 0 0 1, FC 0 0 0 1 0, FC 0 0 0 1 1,
  FC 0 0 1 0 0, FC 0 0 1 0 1, FC 0 0 1 1 0, FC 0 0 1 1 1,
  FC 0 1 0 0 0, FC 0 1 0 0 1, FC 0 1 0 1 0, FC 0 1 0 1 1,
  FC 0 1 1 0 0, FC 0 1 1 0 1, FC 0 1 1 1 0, FC 0 1 1 1 1,
  FC 1 0 0 0 0, FC 1 0 0 0 1, FC 1 0 0 1 0, FC 1 0 0 1 1,
  FC 1 0 1 0 0, FC 1 0 1 0 1, FC 1 0 1 1 0, FC 1 0 1 1 1,
  FC 1 1 0 0 0, FC 1 1 0 0 1, FC 1 1 0 1 0, FC 1 1 0 1 1,
  FC 1 1 1 0 0, FC 1 1 1 0 1, FC 1 1 1 1 0, FC 1 1 1 1 1]

/-- `TableC7` of mf1_crypto1.c: `FC` over the five index bits (first argument = bit 4), shifted to bit position 7. -/
def TableC7 : List Nat := [
  (FC 0 0 0 0 0) <<< 7, (FC 0 0 0 0 1) <<< 7, (FC 0 0 0 1 0) <<< 7, (FC 0 0 0 1 1) <<< 7,
  (FC 0 0 1 0 0) <<< 7, (FC 0 0 1 0 1) <<< 7, (FC 0 0 1 1 0) <<< 7, (FC 0 0 1 1 1) <<< 7,
  (FC 0 1 0 0 0) <<< 7, (FC 0 1 0 0 1) <<< 7, (FC 0 1 0 1 0) <<< 7, (FC 0 1 0 1 1) <<< 7,
  (FC 0 1 1 0 0) <<< 7, (FC 0 1 1 0 1) <<< 7, (FC 0 1 1 1 0) <<< 7, (FC 0 1 1 1 1) <<< 7,
  (FC 1 0 0 0 0) <<< 7, (FC 1 0 0 0 1) <<< 7, (FC 1 0 0 1 0) <<< 7, (FC 1 0 0 1 1) <<< 7,
  (FC 1 0 1 0 0) <<< 7, (FC 1 0 1 0 1) <<< 7, (FC 1 0 1 1 0) <<< 7, (FC 1 0 1 1 1) <<< 7,
  (FC 1 1 0 0 0) <<< 7, (FC 1 1 0 0 1) <<< 7, (FC 1 1 0 1 0) <<< 7, (FC 1 1 0 1 1) <<< 7,
  (FC 1 1 1 0 0) <<< 7, (FC 1 1 1 0 1) <<< 7, (FC 1 1 1 1 0) <<< 7, (FC 1 1 1 1 1) <<< 7]

/-- `TableC3` of mf1_crypto1.c: `FC` over the five index bits (first argument = bit 4), shifted to bit position 3. -/
def TableC3 : List Nat := [
  (FC 0 0 0 0 0) <<< 3, (FC 0 0 0 0 1) <<< 3, (FC 0 0 0 1 0) <<< 3, (FC 0 0 0 1 1) <<< 3,
  (FC 0 0 1 0 0) <<< 3, (FC 0 0 1 0 1) <<< 3, (FC 0 0 1 1 0) <<< 3, (FC 0 0 1 1 1) <<< 3,
  (FC 0 1 0 0 0) <<< 3, (FC 0 1 0 0 1) <<< 3, (FC 0 1 0 1 0) <<< 3, (FC 0 1 0 1 1) <<< 3,
  (FC 0 1 1 0 0) <<< 3, (FC 0 1 1 0 1) <<< 3, (FC 0 1 1 1 0) <<< 3, (FC 0 1 1 1 1) <<< 3,
  (FC 1 0 0 0 0) <<< 3, (FC 1 0 0 0 1) <<< 3, (FC 1 0 0 1 0) <<< 3, (FC 1 0 0 1 1) <<< 3,
  (FC 1 0 1 0 0) <<< 3, (FC 1 0 1 0 1) <<< 3, (FC 1 0 1 1 0) <<< 3, (FC 1 0 1 1 1) <<< 3,
  (FC 1 1 0 0 0) <<< 3, (FC 1 1 0 0 1) <<< 3, (FC 1 1 0 1 0) <<< 3, (FC 1 1 0 1 1) <<< 3,
  (FC 1 1 1 0 0) <<< 3, (FC 1 1 1 0 1) <<< 3, (FC 1 1 1 1 0) <<< 3, (FC 1 1 1 1 1) <<< 3]

/-- `CRYPTO1_FILTER_OUTPUT_B0_24` of mf1_crypto1.c: the table-driven filter
bit at position 0, from the three odd-half bytes. -/
def filterB0 (O0 O1 O2 : Nat) : Nat :=
  TableC0.getD (abFilterTable0.getD O0 0 ||| abFilterTable1.getD O1 0 ||| abFilterTable2.getD O2 0) 0

/-- `CRYPTO1_FILTER_OUTPUT_B3_24` of mf1_crypto1.c: filter bit at position 3. -/
def filterB3 (O0 O1 O2 : Nat) : Nat :=
  TableC3.getD (abFilterTable0.getD O0 0 ||| abFilterTable1.getD O1 0 ||| abFilterTable2.getD O2 0) 0

/-- `CRYPTO1_FILTER_OUTPUT_B7_24` of mf1_crypto1.c: filter bit at position 7. -/
def filterB7 (O0 O1 O2 : Nat) : Nat :=
  TableC7.getD (abFilterTable0.getD O0 0 ||| abFilterTable1.getD O1 0 ||| abFilterTable2.getD O2 0) 0

/-- The byte-split LFSR state of mf1_crypto1.c (`Crypto1LfsrState_t`):
three even bytes and three odd bytes. -/
structure SplitState where
  e0 : Nat
  e1 : Nat
  e2 : Nat
  o0 : Nat
  o1 : Nat
  o2 : Nat
deriving DecidableEq, Repr

/-- `SPLIT_BYTE` of mf1_crypto1.c: distribute the 8 bits of `b` alternately
into the even and odd registers (each shifted right, new bit at position 7).
All stores are `uint8_t`. -/
def split_byte (e o b : Nat) : Nat × Nat :=
  let e := (e >>> 1) ||| ((b &&& 1) <<< 7)
  let b := b >>> 1
  let o := (o >>> 1) ||| ((b &&& 1) <<< 7)
  let b := b >>> 1
  let e := (e >>> 1) ||| ((b &&& 1) <<< 7)
  let b := b >>> 1
  let o := (o >>> 1) ||| ((b &&& 1) <<< 7)
  let b := b >>> 1
  let e := (e >>> 1) ||| ((b &&& 1) <<< 7)
  let b := b >>> 1
  let o := (o >>> 1) ||| ((b &&& 1) <<< 7)
  let b := b >>> 1
  let e := (e >>> 1) ||| ((b &&& 1) <<< 7)
  let b := b >>> 1
  let o := (o >>> 1) ||| ((b &&& 1) <<< 7)
  (e, o)

/-- The key-load sequence of `Crypto1Setup` / `Crypto1SetupNested`: six
`SPLIT_BYTE` invocations filling byte pairs 0, 1, 2 of the registers. -/
def keyLoad (k0 k1 k2 k3 k4 k5 : Nat) : SplitState :=
  let p0 := split_byte 0 0 k0
  let p0 := split_byte p0.1 p0.2 k1
  let p1 := split_byte 0 0 k2
  let p1 := split_byte p1.1 p1.2 k3
  let p2 := split_byte 0 0 k4
  let p2 := split_byte p2.1 p2.2 k5
  ⟨p0.1, p1.1, p2.1, p0.2, p1.2, p2.2⟩

/-- `Crypto1LFSRbyteFeedback` of mf1_crypto1.c (lines 259-280): XOR the
tapped bytes (`LFSR_MASK_EVEN = 0x2010E1`, `LFSR_MASK_ODD = 0x3A7394`,
byte-split) and fold 8 bits into 1, in `uint8_t` arithmetic. -/
def byteFeedback (E0 E1 E2 O0 O1 O2 : Nat) : Nat :=
  let F := E0 &&& 0xE1
  let F := F ^^^ (E1 &&& 0x10)
  let F := F ^^^ (E2 &&& 0x20)
  let F := F ^^^ (O0 &&& 0x94)
  let F := F ^^^ (O1 &&& 0x73)
  let F := F ^^^ (O2 &&& 0x3A)
  let F := F ^^^ ((F >>> 4) ||| ((F <<< 4) &&& 0xFF))
  let F := F ^^^ (F >>> 2)
  let F := F ^^^ (F >>> 1)
  F &&& 1

/-- `SHIFT24` of mf1_crypto1.c: shift the 3-byte register right one bit,
feeding `in & 1` at the top (bit 23); `uint8_t` stores. -/
def shift24 (b0 b1 b2 inb : Nat) : Nat × Nat × Nat :=
  ((b0 >>> 1) ||| ((b1 <<< 7) &&& 0xFF),
   (b1 >>> 1) ||| ((b2 <<< 7) &&& 0xFF),
   (b2 >>> 1) ||| ((inb &&& 1) <<< 7))

/-- `SHIFT24_COND_DECRYPT` of mf1_crypto1.c: as `SHIFT24`, but the fed bit is
`in ^ ((stream & 1) & decrypt)`. -/
def shift24cd (b0 b1 b2 inb stream : Nat) (dec : Bool) : Nat × Nat × Nat :=
  ((b0 >>> 1) ||| ((b1 <<< 7) &&& 0xFF),
   (b1 >>> 1) ||| ((b2 <<< 7) &&& 0xFF),
   (b2 >>> 1) ||| (((inb ^^^ ((stream &&& 1) &&& (if dec then 1 else 0))) &&& 1) <<< 7))

/-- One bit of the 8-bit loop of `Crypto1SetupNested` (mf1_crypto1.c lines
447-474).  The accumulator carries `(KeyStream, Out, In, state)`. -/
def nestedBit (dec : Bool) (acc : Nat × Nat × Nat × SplitState) (i : Nat) :
    Nat × Nat × Nat × SplitState :=
  let ks := acc.1
  let out := acc.2.1
  let inb := acc.2.2.1
  let st := acc.2.2.2
  let ko : Nat × Nat :=
    if i = 0 then
      ((ks >>> 1) ||| ((out &&& 1) <<< 7), out)
    else
      let o := if i % 2 = 1 then filterB7 st.e0 st.e1 st.e2 else filterB7 st.o0 st.o1 st.o2
      ((ks >>> 1) ||| o, o)
  let fb := if i % 2 = 1 then byteFeedback st.o0 st.o1 st.o2 st.e0 st.e1 st.e2
            else byteFeedback st.e0 st.e1 st.e2 st.o0 st.o1 st.o2
  let fb := fb ^^^ (inb &&& 1)
  let st' : SplitState :=
    if i % 2 = 1 then
      let r := shift24cd st.o0 st.o1 st.o2 fb ko.2 dec
      ⟨st.e0, st.e1, st.e2, r.1, r.2.1, r.2.2⟩
    else
      let r := shift24cd st.e0 st.e1 st.e2 fb ko.2 dec
      ⟨r.1, r.2.1, r.2.2, st.o0, st.o1, st.o2⟩
  (ko.1, ko.2, inb >>> 1, st')

/-- One byte of `Crypto1SetupNested`: clock the 8 bits of
`In = CardNonce[b] ^ Uid[b]`, then produce the parity bit from a fresh
filter output (which is also carried into the next byte as its first
keystream bit).  Returns `(KeyStream, NonceParity[b], Out, state)`. -/
def nestedByte (dec : Bool) (st : SplitState) (out nb ub : Nat) :
    Nat × Nat × Nat × SplitState :=
  let r := (List.range 8).foldl (nestedBit dec) (0, out, nb ^^^ ub, st)
  let st' := r.2.2.2
  let pout := filterB0 st'.o0 st'.o1 st'.o2
  (r.1, oddparity8 nb ^^^ pout, pout, st')

/-- Result of `Crypto1SetupNested`: the four encrypted nonce bytes, the four
encrypted parity bits, and the final LFSR state. -/
structure NestedOut where
  c0 : Nat
  c1 : Nat
  c2 : Nat
  c3 : Nat
  p0 : Nat
  p1 : Nat
  p2 : Nat
  p3 : Nat
  st : SplitState
deriving DecidableEq, Repr

/-- `Crypto1SetupNested` of mf1_crypto1.c (lines 419-491): load the key,
take a first filter output, then process the four nonce bytes. -/
def Crypto1SetupNested (k0 k1 k2 k3 k4 k5 u0 u1 u2 u3 n0 n1 n2 n3 : Nat)
    (dec : Bool) : NestedOut :=
  let st := keyLoad k0 k1 k2 k3 k4 k5
  let out := filterB0 st.o0 st.o1 st.o2
  let r0 := nestedByte dec st out n0 u0
  let r1 := nestedByte dec r0.2.2.2 r0.2.2.1 n1 u1
  let r2 := nestedByte dec r1.2.2.2 r1.2.2.1 n2 u2
  let r3 := nestedByte dec r2.2.2.2 r2.2.2.1 n3 u3
  ⟨n0 ^^^ r0.1, n1 ^^^ r1.1, n2 ^^^ r2.1, n3 ^^^ r3.1,
   r0.2.1, r1.2.1, r2.2.1, r3.2.1, r3.2.2.2⟩

/-- One plain (no keystream, no decrypt) clock of the byte-split state, as in
the bit loop of `Crypto1Setup`: feedback per bit parity, XOR the input bit,
`SHIFT24` the corresponding half.  The accumulator carries `(In, state)`. -/
def plainBit (acc : Nat × SplitState) (i : Nat) : Nat × SplitState :=
  let inb := acc.1
  let st := acc.2
  let fb := if i % 2 = 1 then byteFeedback st.o0 st.o1 st.o2 st.e0 st.e1 st.e2
            else byteFeedback st.e0 st.e1 st.e2 st.o0 st.o1 st.o2
  let fb := fb ^^^ (inb &&& 1)
  let st' : SplitState :=
    if i % 2 = 1 then
      let r := shift24 st.o0 st.o1 st.o2 fb
      ⟨st.e0, st.e1, st.e2, r.1, r.2.1, r.2.2⟩
    else
      let r := shift24 st.e0 st.e1 st.e2 fb
      ⟨r.1, r.2.1, r.2.2, st.o0, st.o1, st.o2⟩
  (inb >>> 1, st')

/-- Eight plain clocks feeding the bits of `inv`. -/
def plainByte (st : SplitState) (inv : Nat) : SplitState :=
  ((List.range 8).foldl plainBit (inv, st)).2

/-- Plain clocking of a list of input bytes. -/
def clocked (st : SplitState) : List Nat → SplitState
  | [] => st
  | b :: r => clocked (plainByte st b) r

/-- One bit of the loop of `Crypto1Auth` (mf1_crypto1.c lines 519-539),
mirroring the code faithfully: the filter output is computed into `Feedback`,
then overwritten by the LFSR tap feedback, and then
`Feedback ^= Feedback ^ (In & 1)` leaves just the raw input bit to be
shifted in.  The accumulator carries `(In, state)`. -/
def authBit (acc : Nat × SplitState) (i : Nat) : Nat × SplitState :=
  let inb := acc.1
  let st := acc.2
  let _f1 := if i % 2 = 1 then filterB0 st.e0 st.e1 st.e2 else filterB0 st.o0 st.o1 st.o2
  let f2 := if i % 2 = 1 then byteFeedback st.o0 st.o1 st.o2 st.e0 st.e1 st.e2
            else byteFeedback st.e0 st.e1 st.e2 st.o0 st.o1 st.o2
  let fb := f2 ^^^ (f2 ^^^ (inb &&& 1))
  let st' : SplitState :=
    if i % 2 = 1 then
      let r := shift24 st.o0 st.o1 st.o2 fb
      ⟨st.e0, st.e1, st.e2, r.1, r.2.1, r.2.2⟩
    else
      let r := shift24 st.e0 st.e1 st.e2 fb
      ⟨r.1, r.2.1, r.2.2, st.o0, st.o1, st.o2⟩
  (inb >>> 1, st')

/-- `Crypto1Auth` of mf1_crypto1.c (lines 501-549): clock the four encrypted
reader-nonce bytes into the state. -/
def Crypto1Auth (st : SplitState) (b0 b1 b2 b3 : Nat) : SplitState :=
  let st := ((List.range 8).foldl authBit (b0, st)).2
  let st := ((List.range 8).foldl authBit (b1, st)).2
  let st := ((List.range 8).foldl authBit (b2, st)).2
  ((List.range 8).foldl authBit (b3, st)).2

/-- Modelled from the spec (section 4.7): one forward clock with
`is_encrypted = true` on the byte-split state — the bit shifted into the
register is the LFSR tap parity XOR the filter output of the current state
XOR the ciphertext bit. -/
def authRefBit (acc : Nat × SplitState) (i : Nat) : Nat × SplitState :=
  let inb := acc.1
  let st := acc.2
  let f1 := if i % 2 = 1 then filterB0 st.e0 st.e1 st.e2 else filterB0 st.o0 st.o1 st.o2
  let f2 := if i % 2 = 1 then byteFeedback st.o0 st.o1 st.o2 st.e0 st.e1 st.e2
            else byteFeedback st.e0 st.e1 st.e2 st.o0 st.o1 st.o2
  let fb := f2 ^^^ f1 ^^^ (inb &&& 1)
  let st' : SplitState :=
    if i % 2 = 1 then
      let r := shift24 st.o0 st.o1 st.o2 fb
      ⟨st.e0, st.e1, st.e2, r.1, r.2.1, r.2.2⟩
    else
      let r := shift24 st.e0 st.e1 st.e2 fb
      ⟨r.1, r.2.1, r.2.2, st.o0, st.o1, st.o2⟩
  (inb >>> 1, st')

/-- Modelled from the spec (section 4.7): `Crypto1Auth` as 32 correct
forward clocks with `is_encrypted = true`, so the register sees the
decrypted plaintext. -/
def Crypto1AuthRef (st : SplitState) (b0 b1 b2 b3 : Nat) : SplitState :=
  let st := ((List.range 8).foldl authRefBit (b0, st)).2
  let st := ((List.range 8).foldl authRefBit (b1, st)).2
  let st := ((List.range 8).foldl authRefBit (b2, st)).2
  ((List.range 8).foldl authRefBit (b3, st)).2

/-- Reversal of a 4-bit group. -/
def rev4 (n : Nat) : Nat :=
  bit n 3 ||| (bit n 2 <<< 1) ||| (bit n 1 <<< 2) ||| (bit n 0 <<< 3)

/-- Reversal of the 8 bits of a byte. -/
def rev8 (b : Nat) : Nat := rev4 (b >>> 4) ||| (rev4 (b &&& 0xf) <<< 4)

/-- The packed 24-bit odd half represented by the three byte-split odd bytes:
bit `j` of the byte-split value (little-endian in `O0, O1, O2`) is bit
`23 - j` of the packed register, as established by comparing the `SPLIT_BYTE`
key load of mf1_crypto1.c with `crypto1_init` of part_003. -/
def pack24 (O0 O1 O2 : Nat) : Nat :=
  (rev8 O0 <<< 16) ||| (rev8 O1 <<< 8) ||| rev8 O2

/-- `Crypto1FilterOutput` of mf1_crypto1.c (lines 329-331): the filter output
of a byte-split state, without advancing the LFSR. -/
def Crypto1FilterOutput (st : SplitState) : Nat := filterB0 st.o0 st.o1 st.o2

/-! ### Helper lemmas -/

theorem bit_le_one (x n : Nat) : bit x n ≤ 1 := Nat.and_le_right

theorem foldl_xor_bit_le_one (x : Nat) :
    ∀ (l : List Nat) (a : Nat), a ≤ 1 → l.foldl (fun a i => a ^^^ bit x i) a ≤ 1 := by
  intro l
  induction l with
  | nil => intro a ha; simpa using ha
  | cons i r ih =>
    intro a ha
    rw [List.foldl_cons]
    apply ih
    have hb := bit_le_one x i
    rcases Nat.le_one_iff_eq_zero_or_eq_one.mp ha with h | h <;>
      rcases Nat.le_one_iff_eq_zero_or_eq_one.mp hb with h' | h' <;>
        simp [h, h']

theorem evenparity32_le_one (x : Nat) : evenparity32 x ≤ 1 :=
  foldl_xor_bit_le_one x (List.range 32) 0 (by omega)

theorem shiftLeft_one_lt (a n : Nat) (h : a < 2 ^ n) : a <<< 1 < 2 ^ (n + 1) := by
  rw [Nat.shiftLeft_eq, Nat.pow_succ]
  omega

theorem or1_lt (t p : Nat) (ht : t < 2 ^ 24) (hp : p ≤ 1) :
    ((t <<< 1) ||| p) % 4294967296 < 2 ^ 25 := by
  have h1 : t <<< 1 < 2 ^ 25 := shiftLeft_one_lt t 24 ht
  have h2 : p < 2 ^ 25 := lt_of_le_of_lt hp (by norm_num)
  exact lt_of_le_of_lt (Nat.mod_le _ _) (Nat.or_lt_two_pow h1 h2)

theorem or1_mod32 (t p : Nat) (ht : t < 2 ^ 24) (hp : p ≤ 1) :
    ((t <<< 1) ||| p) % 4294967296 = (t <<< 1) ||| p := by
  apply Nat.mod_eq_of_lt
  have h1 : t <<< 1 < 2 ^ 25 := shiftLeft_one_lt t 24 ht
  have h2 : p < 2 ^ 25 := lt_of_le_of_lt hp (by norm_num)
  calc (t <<< 1) ||| p < 2 ^ 25 := Nat.or_lt_two_pow h1 h2
  _ ≤ 4294967296 := by norm_num

/-- C2 helper: the new even half of `crypto1_bit` without the (vacuous)
`uint32_t` truncation. -/
theorem crypto1_bit_even_eq (s : Crypto1State) (inb : Nat) (enc : Bool)
    (ho : s.odd < 2 ^ 24) :
    (crypto1_bit s inb enc).2.even =
      (s.odd <<< 1) |||
        evenparity32 ((((if inb = 0 then 0 else 1) ^^^ (filter s.odd &&& (if enc then 1 else 0))) ^^^
          (LF_POLY_ODD &&& s.odd)) ^^^ (LF_POLY_EVEN &&& s.even)) := by
  show (((s.odd <<< 1) ||| evenparity32 _) % 4294967296) = _
  rw [or1_mod32 _ _ ho (evenparity32_le_one _)]
  congr 2
  rw [Nat.xor_comm (filter s.odd &&& (if enc then 1 else 0)) (if inb = 0 then 0 else 1)]

/-!
### C2 — one forward clock of `crypto1_bit`
-/

/-- C2: for every state with both halves below 2^24, every input bit in
{0,1}, and every `is_encrypted` flag, `crypto1_bit` returns the filter of the
pre-call odd half, moves the old even half into the odd half, and the new
even half is the old odd half shifted left one with the even-parity of
`(in & 1) XOR (out AND is_encrypted) XOR (LF_POLY_ODD & odd) XOR
(LF_POLY_EVEN & even)` inserted at the bottom. -/
theorem crypto1_bit_clock (s : Crypto1State) (inb : Nat) (enc : Bool)
    (ho : s.odd < 2 ^ 24) (he : s.even < 2 ^ 24) (hi : inb = 0 ∨ inb = 1) :
    (crypto1_bit s inb enc).1 = filter s.odd ∧
    (crypto1_bit s inb enc).2.odd = s.even ∧
    (crypto1_bit s inb enc).2.even =
      (s.odd <<< 1) |||
        evenparity32 ((((inb &&& 1) ^^^ (filter s.odd &&& (if enc then 1 else 0))) ^^^
          (LF_POLY_ODD &&& s.odd)) ^^^ (LF_POLY_EVEN &&& s.even)) := by
  refine ⟨rfl, rfl, ?_⟩
  rw [crypto1_bit_even_eq s inb enc ho]
  congr 3
  rcases hi with h | h <;> simp [h]

/-- Witness for C2 at a concrete state and input. -/
theorem crypto1_bit_clock_witness :
    (crypto1_bit ⟨0x29CE5C, 0x123456⟩ 1 true).1 = filter 0x29CE5C ∧
    (crypto1_bit ⟨0x29CE5C, 0x123456⟩ 1 true).2.odd = 0x123456 ∧
    (crypto1_bit ⟨0x29CE5C, 0x123456⟩ 1 true).2.even =
      (0x29CE5C <<< 1) |||
        evenparity32 ((((1 &&& 1) ^^^ (filter 0x29CE5C &&& 1)) ^^^
          (LF_POLY_ODD &&& 0x29CE5C)) ^^^ (LF_POLY_EVEN &&& 0x123456)) :=
  crypto1_bit_clock ⟨0x29CE5C, 0x123456⟩ 1 true (by decide) (by decide) (Or.inr rfl)

/-!
### C3 — 24-bit width of the halves
-/

/-- C3 counterexample: `crypto1_bit` does not mask the new even half to 24
bits — from the valid state `odd = 0x800000, even = 0` one clock yields an
even half with bit 24 set. -/
theorem crypto1_bit_not_masked :
    ¬ ((crypto1_bit ⟨0x800000, 0⟩ 0 false).2.odd < 2 ^ 24 ∧
       (crypto1_bit ⟨0x800000, 0⟩ 0 false).2.even < 2 ^ 24) := by
  decide

theorem initFold_bound (key : Nat) :
    ∀ (l : List Nat) (st : Crypto1State) (a : Nat),
      st.odd < 2 ^ a → st.even < 2 ^ a →
      (l.foldl (initStep key) st).odd < 2 ^ (a + l.length) ∧
      (l.foldl (initStep key) st).even < 2 ^ (a + l.length) := by
  intro l
  induction l with
  | nil => intro st a h1 h2; simpa using ⟨h1, h2⟩
  | cons i r ih =>
    intro st a h1 h2
    rw [List.foldl_cons]
    have hb1 : (initStep key st i).odd < 2 ^ (a + 1) := by
      apply Nat.or_lt_two_pow (shiftLeft_one_lt _ _ h1)
      have := bit_le_one key ((i - 1) ^^^ 7)
      have h2 : (2 : Nat) ≤ 2 ^ (a + 1) := by
        calc (2 : Nat) = 2 ^ 1 := by norm_num
        _ ≤ 2 ^ (a + 1) := Nat.pow_le_pow_right (by omega) (by omega)
      omega
    have hb2 : (initStep key st i).even < 2 ^ (a + 1) := by
      apply Nat.or_lt_two_pow (shiftLeft_one_lt _ _ h2)
      have := bit_le_one key (i ^^^ 7)
      have h2 : (2 : Nat) ≤ 2 ^ (a + 1) := by
        calc (2 : Nat) = 2 ^ 1 := by norm_num
        _ ≤ 2 ^ (a + 1) := Nat.pow_le_pow_right (by omega) (by omega)
      omega
    have hlen : (a + 1) + r.length = a + (i :: r).length := by
      simp [List.length_cons]; omega
    rw [← hlen]
    exact ih (initStep key st i) (a + 1) hb1 hb2

/-- C3 amended: one `crypto1_bit` clock keeps the (new) odd half below 2^24
but only bounds the new even half by 2^25 — the code performs no 24-bit
mask — while `crypto1_init` does establish both halves below 2^24 for every
key. -/
theorem crypto1_bit_width :
    (∀ (s : Crypto1State) (inb : Nat) (enc : Bool), s.odd < 2 ^ 24 → s.even < 2 ^ 24 →
      (crypto1_bit s inb enc).2.odd < 2 ^ 24 ∧ (crypto1_bit s inb enc).2.even < 2 ^ 25) ∧
    (∀ key : Nat, (crypto1_init key).odd < 2 ^ 24 ∧ (crypto1_init key).even < 2 ^ 24) := by
  constructor
  · intro s inb enc ho he
    refine ⟨he, ?_⟩
    show (((s.odd <<< 1) ||| evenparity32 _) % 4294967296) < 2 ^ 25
    exact or1_lt _ _ ho (evenparity32_le_one _)
  · intro key
    have h := initFold_bound key ((List.range 24).map (fun k => 47 - 2 * k)) ⟨0, 0⟩ 0
      (by norm_num) (by norm_num)
    simpa [crypto1_init] using h

/-- Witness for C3's amended theorem at concrete inputs. -/
theorem crypto1_bit_width_witness :
    ((crypto1_bit ⟨5, 7⟩ 1 true).2.odd < 2 ^ 24 ∧ (crypto1_bit ⟨5, 7⟩ 1 true).2.even < 2 ^ 25) ∧
    ((crypto1_init 0xFFFFFFFFFFFF).odd < 2 ^ 24 ∧ (crypto1_init 0xFFFFFFFFFFFF).even < 2 ^ 24) :=
  ⟨crypto1_bit_width.1 ⟨5, 7⟩ 1 true (by decide) (by decide), crypto1_bit_width.2 0xFFFFFFFFFFFF⟩

/-!
### C7 — `crypto1_word` as 32 sequential bit clocks
-/

theorem word_seq_aux (inw : Nat) (enc : Bool) :
    ∀ (idxs : List Nat), (∀ i ∈ idxs, i < 32) → ∀ (s : Crypto1State) (acc : Nat),
      idxs.foldl (fun p i =>
        let r := crypto1_bit p.2 (bit inw (i ^^^ 24)) enc
        (p.1 ||| (r.1 <<< ((24 ^^^ i) &&& 0x1F)), r.2)) (acc, s)
      = (acc ||| (seqWord inw enc idxs s).1, (seqWord inw enc idxs s).2) := by
  intro idxs
  induction idxs with
  | nil => intro _ s acc; simp [seqWord]
  | cons i r ih =>
    intro hmem s acc
    have hi : i < 32 := hmem i (List.mem_cons_self i r)
    have hxor : 24 ^^^ i < 32 := by
      have h24 : (24 : Nat) < 2 ^ 5 := by norm_num
      have hi5 : i < 2 ^ 5 := by norm_num at hi ⊢; omega
      exact Nat.xor_lt_two_pow h24 hi5
    have hmask : (24 ^^^ i) &&& 0x1F = 24 ^^^ i := by
      have : (0x1F : Nat) = 2 ^ 5 - 1 := by norm_num
      rw [this, Nat.and_pow_two_sub_one_of_lt_two_pow hxor]
    have hbit : i ^^^ 24 = 24 ^^^ i := Nat.xor_comm i 24
    simp only [List.foldl_cons, seqWord]
    rw [ih (fun j hj => hmem j (List.mem_cons_of_mem i hj))]
    rw [hmask, hbit, Nat.or_assoc]

/-- C7: `crypto1_word` equals the composition of 32 sequential `crypto1_bit`
calls in MIFARE big-endian bit order — the i-th call receives bit `24 XOR i`
of the input word and places its bit at position `24 XOR i` of the result;
the final state is that after the 32 bit calls. -/
theorem crypto1_word_eq_seq (s : Crypto1State) (inw : Nat) (enc : Bool) :
    crypto1_word s inw enc = seqWord inw enc (List.range 32) s := by
  have h := word_seq_aux inw enc (List.range 32)
    (fun i hi => List.mem_range.mp hi) s 0
  calc crypto1_word s inw enc
      = (0 ||| (seqWord inw enc (List.range 32) s).1, (seqWord inw enc (List.range 32) s).2) := h
    _ = seqWord inw enc (List.range 32) s := by simp

/-!
### C9 — `prng_successor`
-/

set_option maxRecDepth 8192 in
/-- C9 counterexample: the spec's concrete vector is wrong for this code:
`prng_successor(0x01020304, 1)` is `0x00810182`, not `0x01020381`. -/
theorem prng_vector_counterexample : prng_successor 0x01020304 1 ≠ 0x01020381 := by
  decide

set_option maxRecDepth 8192 in
/-- C9 amended: `prng_successor` equals the reference definition (byte-swap,
`n` single steps, byte-swap back) for every `x` and `n` — the `n = 1` and
`n = 16` fast paths agree with the general loop — and on the spec's inputs
the actual values are `prng_successor(0x01020304, 1) = 0x00810182` and
`prng_successor(0x01020304, 64) = 0x20F8ED56`. -/
theorem prng_successor_ref :
    (∀ x n, prng_successor x n = prng_ref x n) ∧
    prng_successor 0x01020304 1 = 0x00810182 ∧
    prng_successor 0x01020304 64 = 0x20F8ED56 := by
  refine ⟨fun x n => ?_, by decide, by decide⟩
  unfold prng_successor prng_ref
  split_ifs with h1 h16
  · subst h1; rfl
  · subst h16; rfl
  · rfl

/-! ### XOR-linearity kit -/

theorem xor_shiftRight (a b k : Nat) : (a ^^^ b) >>> k = (a >>> k) ^^^ (b >>> k) := by
  apply Nat.eq_of_testBit_eq
  intro i
  simp [Nat.testBit_shiftRight, Nat.testBit_xor]

theorem xor_shiftLeft (a b k : Nat) : (a ^^^ b) <<< k = (a <<< k) ^^^ (b <<< k) := by
  apply Nat.eq_of_testBit_eq
  intro i
  simp only [Nat.testBit_shiftLeft, Nat.testBit_xor]
  by_cases h : k ≤ i <;> simp [h]

theorem xor_mod_two_pow (a b n : Nat) : (a ^^^ b) % 2 ^ n = (a % 2 ^ n) ^^^ (b % 2 ^ n) := by
  apply Nat.eq_of_testBit_eq
  intro i
  simp only [Nat.testBit_mod_two_pow, Nat.testBit_xor]
  by_cases h : i < n <;> simp [h]

theorem or_eq_xor_of_and_zero {a b : Nat} (h : a &&& b = 0) : a ||| b = a ^^^ b := by
  apply Nat.eq_of_testBit_eq
  intro i
  have hi : (a &&& b).testBit i = false := by rw [h]; simp
  simp only [Nat.testBit_and] at hi
  simp only [Nat.testBit_or, Nat.testBit_xor]
  cases ha : a.testBit i <;> cases hb : b.testBit i <;> simp_all

theorem xor_left_comm (a b c : Nat) : a ^^^ (b ^^^ c) = b ^^^ (a ^^^ c) := by
  rw [← Nat.xor_assoc, Nat.xor_comm a b, Nat.xor_assoc]

theorem bit_xor (a b c : Nat) : bit (a ^^^ b) c = bit a c ^^^ bit b c := by
  unfold bit
  rw [xor_shiftRight, Nat.and_xor_distrib_right]

theorem shiftLeft_one_lor_eq_xor (t u : Nat) (hu : u ≤ 1) :
    (t <<< 1) ||| u = (t <<< 1) ^^^ u := by
  apply or_eq_xor_of_and_zero
  rcases Nat.le_one_iff_eq_zero_or_eq_one.mp hu with h | h
  · simp [h]
  · subst h
    rw [Nat.and_one_is_mod, Nat.shiftLeft_eq]
    omega

theorem shiftLeft_one_lor_bit (t u c : Nat) : (t <<< 1) ||| bit u c = (t <<< 1) ^^^ bit u c :=
  shiftLeft_one_lor_eq_xor _ _ (bit_le_one _ _)

theorem xor_le_one {a b : Nat} (ha : a ≤ 1) (hb : b ≤ 1) : a ^^^ b ≤ 1 := by
  rcases Nat.le_one_iff_eq_zero_or_eq_one.mp ha with h | h <;>
    rcases Nat.le_one_iff_eq_zero_or_eq_one.mp hb with h' | h' <;> simp [h, h']

/-- Two functions that are XOR-linear below `2^n` and agree on `0` and on the
basis vectors `2^j`, `j < n`, agree everywhere below `2^n`. -/
theorem linearExt {F G : Nat → Nat} {n : Nat}
    (hF : ∀ a b, a < 2 ^ n → b < 2 ^ n → F (a ^^^ b) = F a ^^^ F b)
    (hG : ∀ a b, a < 2 ^ n → b < 2 ^ n → G (a ^^^ b) = G a ^^^ G b)
    (h0 : F 0 = G 0)
    (hb : ∀ j, j < n → F (2 ^ j) = G (2 ^ j)) :
    ∀ x, x < 2 ^ n → F x = G x := by
  intro x
  induction x using Nat.strong_induction_on with
  | _ x ih =>
    intro hx
    by_cases hx0 : x = 0
    · subst hx0; exact h0
    · obtain ⟨j, hj1, hj2⟩ : ∃ j, 2 ^ j ≤ x ∧ x < 2 ^ (j + 1) := by
        refine ⟨Nat.size x - 1, ?_, ?_⟩
        · apply Nat.lt_size.mp
          have := Nat.size_pos.mpr (Nat.pos_of_ne_zero hx0)
          omega
        · have h1 := Nat.lt_size_self x
          have h2 : Nat.size x - 1 + 1 = Nat.size x := by
            have := Nat.size_pos.mpr (Nat.pos_of_ne_zero hx0)
            omega
          rw [h2]
          exact h1
      have hjn : j < n := by
        by_contra h
        push_neg at h
        have hle : (2 : Nat) ^ n ≤ 2 ^ j := Nat.pow_le_pow_right (by omega) h
        omega
      have hbitj : x.testBit j = true := by
        have hdiv : x / 2 ^ j = 1 := by
          have hpos : (0 : Nat) < 2 ^ j := Nat.pos_pow_of_pos j (by omega)
          have h1 : 1 ≤ x / 2 ^ j := (Nat.le_div_iff_mul_le hpos).mpr (by omega)
          have h2 : x / 2 ^ j < 2 := by
            apply Nat.div_lt_of_lt_mul
            calc x < 2 ^ (j + 1) := hj2
            _ = 2 ^ j * 2 := by rw [Nat.pow_succ]
          omega
        rw [Nat.testBit_to_div_mod, hdiv]
        decide
      have hylt : (x ^^^ 2 ^ j) < 2 ^ j := by
        apply Nat.lt_pow_two_of_testBit
        intro i hi
        rw [Nat.testBit_xor]
        rcases Nat.eq_or_lt_of_le hi with h | h
        · rw [← h, hbitj, Nat.testBit_two_pow_self]
          rfl
        · have hx' : x.testBit i = false := by
            apply Nat.testBit_lt_two_pow
            calc x < 2 ^ (j + 1) := hj2
            _ ≤ 2 ^ i := Nat.pow_le_pow_right (by omega) (by omega)
          rw [hx', Nat.testBit_two_pow_of_ne (by omega)]
          rfl
      have hxy : (x ^^^ 2 ^ j) ^^^ 2 ^ j = x := Nat.xor_cancel_right _ _
      have hyx : (x ^^^ 2 ^ j) < x := lt_of_lt_of_le hylt hj1
      have h2jn : (2 : Nat) ^ j < 2 ^ n := Nat.pow_lt_pow_right (by omega) hjn
      have hyn : (x ^^^ 2 ^ j) < 2 ^ n := lt_trans hylt h2jn
      calc F x = F ((x ^^^ 2 ^ j) ^^^ 2 ^ j) := by rw [hxy]
      _ = F (x ^^^ 2 ^ j) ^^^ F (2 ^ j) := hF _ _ hyn h2jn
      _ = G (x ^^^ 2 ^ j) ^^^ G (2 ^ j) := by rw [ih _ hyx hyn, hb j hjn]
      _ = G ((x ^^^ 2 ^ j) ^^^ 2 ^ j) := (hG _ _ hyn h2jn).symm
      _ = G x := by rw [hxy]

/-!
### C8 — get/set round trip
-/

theorem initFold_xor (ka kb : Nat) :
    ∀ (l : List Nat) (s1 s2 : Crypto1State),
      l.foldl (initStep (ka ^^^ kb)) ⟨s1.odd ^^^ s2.odd, s1.even ^^^ s2.even⟩ =
      ⟨(l.foldl (initStep ka) s1).odd ^^^ (l.foldl (initStep kb) s2).odd,
       (l.foldl (initStep ka) s1).even ^^^ (l.foldl (initStep kb) s2).even⟩ := by
  intro l
  induction l with
  | nil => intro s1 s2; rfl
  | cons i r ih =>
    intro s1 s2
    rw [List.foldl_cons, List.foldl_cons, List.foldl_cons]
    have hstep : initStep (ka ^^^ kb) ⟨s1.odd ^^^ s2.odd, s1.even ^^^ s2.even⟩ i =
        ⟨(initStep ka s1 i).odd ^^^ (initStep kb s2 i).odd,
         (initStep ka s1 i).even ^^^ (initStep kb s2 i).even⟩ := by
      unfold initStep
      simp only [shiftLeft_one_lor_bit]
      simp only [bit_xor, xor_shiftLeft, Crypto1State.mk.injEq]
      constructor <;> simp [Nat.xor_assoc, Nat.xor_comm, xor_left_comm]
    rw [hstep]
    exact ih (initStep ka s1 i) (initStep kb s2 i)

theorem getFold_xor (sA sB : Crypto1State) :
    ∀ (l : List Nat) (a1 a2 : Nat),
      l.foldl (getStep ⟨sA.odd ^^^ sB.odd, sA.even ^^^ sB.even⟩) (a1 ^^^ a2) =
      (l.foldl (getStep sA) a1) ^^^ (l.foldl (getStep sB) a2) := by
  intro l
  induction l with
  | nil => intro a1 a2; rfl
  | cons i r ih =>
    intro a1 a2
    rw [List.foldl_cons, List.foldl_cons, List.foldl_cons]
    have hstep : getStep ⟨sA.odd ^^^ sB.odd, sA.even ^^^ sB.even⟩ (a1 ^^^ a2) i =
        getStep sA a1 i ^^^ getStep sB a2 i := by
      unfold getStep
      simp only [shiftLeft_one_lor_bit]
      simp only [bit_xor, xor_shiftLeft]
      simp [Nat.xor_assoc, Nat.xor_comm, xor_left_comm]
    rw [hstep]
    exact ih (getStep sA a1 i) (getStep sB a2 i)

theorem getInit_xor (a b : Nat) :
    crypto1_get_lfsr (crypto1_init (a ^^^ b)) =
      crypto1_get_lfsr (crypto1_init a) ^^^ crypto1_get_lfsr (crypto1_init b) := by
  unfold crypto1_init crypto1_get_lfsr
  have h0 : (⟨0, 0⟩ : Crypto1State) = ⟨(⟨0, 0⟩ : Crypto1State).odd ^^^ (⟨0, 0⟩ : Crypto1State).odd,
      (⟨0, 0⟩ : Crypto1State).even ^^^ (⟨0, 0⟩ : Crypto1State).even⟩ := by simp
  rw [h0, initFold_xor a b _ ⟨0, 0⟩ ⟨0, 0⟩]
  have := getFold_xor
    (((List.range 24).map (fun k => 47 - 2 * k)).foldl (initStep a) ⟨0, 0⟩)
    (((List.range 24).map (fun k => 47 - 2 * k)).foldl (initStep b) ⟨0, 0⟩)
    ((List.range 24).map (fun k => 23 - k)) 0 0
  simpa using this

set_option maxRecDepth 20000 in
theorem getInit_basis : ∀ j, j < 48 →
    crypto1_get_lfsr (crypto1_init (2 ^ j)) = 2 ^ j := by
  decide

set_option maxRecDepth 20000 in
/-- C8: for every 48-bit key `K`, `crypto1_get_lfsr (crypto1_init K) = K`. -/
theorem get_init_roundtrip (K : Nat) (hK : K < 2 ^ 48) :
    crypto1_get_lfsr (crypto1_init K) = K :=
  @linearExt (fun K => crypto1_get_lfsr (crypto1_init K)) (fun x => x) 48
    (fun a b _ _ => getInit_xor a b) (fun a b _ _ => rfl) (by decide) getInit_basis K hK

set_option maxRecDepth 20000 in
/-- Witness for C8 at a concrete key. -/
theorem get_init_roundtrip_witness :
    crypto1_get_lfsr (crypto1_init 0x123456789ABC) = 0x123456789ABC :=
  get_init_roundtrip 0x123456789ABC (by norm_num)

/-!
### C10 — the chunked `Crypto1PRNG` equals iterated single steps
-/

theorem lor_shiftRight (a b k : Nat) : (a ||| b) >>> k = (a >>> k) ||| (b >>> k) := by
  apply Nat.eq_of_testBit_eq
  intro i
  simp [Nat.testBit_shiftRight, Nat.testBit_or]

theorem shiftRight_lt_pow (x k : Nat) (hx : x < 2 ^ 32) (hk : k ≤ 32) :
    x >>> k < 2 ^ (32 - k) := by
  rw [Nat.shiftRight_eq_div_pow]
  apply Nat.div_lt_of_lt_mul
  have h : (2 : Nat) ^ k * 2 ^ (32 - k) = 2 ^ 32 := by
    rw [← Nat.pow_add]
    congr 1
    omega
  omega

theorem lor_disjoint (u v s : Nat) (hu : u < 2 ^ s) :
    u ||| ((v <<< s) % 4294967296) = u ^^^ ((v <<< s) % 4294967296) := by
  apply or_eq_xor_of_and_zero
  apply Nat.eq_of_testBit_eq
  intro i
  simp only [Nat.testBit_and, Nat.zero_testBit]
  by_cases hi : i < s
  · have hT : ((v <<< s) % 4294967296).testBit i = false := by
      have h32 : (4294967296 : Nat) = 2 ^ 32 := by norm_num
      rw [h32, Nat.testBit_mod_two_pow, Nat.testBit_shiftLeft]
      simp [Nat.not_le.mpr hi]
    simp [hT]
  · have hU : u.testBit i = false := by
      apply Nat.testBit_lt_two_pow
      calc u < 2 ^ s := hu
      _ ≤ 2 ^ i := Nat.pow_le_pow_right (by omega) (by omega)
    simp [hU]

theorem shiftRight_le_self (x k : Nat) : x >>> k ≤ x := by
  rw [Nat.shiftRight_eq_div_pow]
  exact Nat.div_le_self _ _

theorem prngStep_lt (x : Nat) (hx : x < 2 ^ 32) : prngStep x < 2 ^ 32 := by
  unfold prngStep
  apply Nat.or_lt_two_pow
  · exact lt_of_le_of_lt (shiftRight_le_self x 1) hx
  · exact lt_of_lt_of_le (Nat.mod_lt _ (by norm_num)) (by norm_num)

theorem prngIter_lt (n x : Nat) (hx : x < 2 ^ 32) : prngIter n x < 2 ^ 32 := by
  induction n generalizing x with
  | zero => exact hx
  | succ n ih => exact ih _ (prngStep_lt x hx)

theorem prngChunk_lt (k x : Nat) (hx : x < 2 ^ 32) : prngChunk k x < 2 ^ 32 := by
  unfold prngChunk
  apply Nat.or_lt_two_pow
  · exact lt_of_le_of_lt (shiftRight_le_self x k) hx
  · exact lt_of_lt_of_le (Nat.mod_lt _ (by norm_num)) (by norm_num)

instance : Std.Associative (fun a b : Nat => a ^^^ b) := ⟨Nat.xor_assoc⟩

instance : Std.Commutative (fun a b : Nat => a ^^^ b) := ⟨Nat.xor_comm⟩

theorem xor_regroup4 (p q r s : Nat) : (p ^^^ q) ^^^ (r ^^^ s) = (p ^^^ r) ^^^ (q ^^^ s) := by
  ac_rfl

set_option maxHeartbeats 1000000 in
theorem prngStep_xor (a b : Nat) (ha : a < 2 ^ 32) (hb : b < 2 ^ 32) :
    prngStep (a ^^^ b) = prngStep a ^^^ prngStep b := by
  have hab : a ^^^ b < 2 ^ 32 := Nat.xor_lt_two_pow ha hb
  unfold prngStep
  rw [lor_disjoint _ _ 31 (shiftRight_lt_pow _ 1 hab (by omega)),
      lor_disjoint _ _ 31 (shiftRight_lt_pow _ 1 ha (by omega)),
      lor_disjoint _ _ 31 (shiftRight_lt_pow _ 1 hb (by omega))]
  have hv : ((a ^^^ b) >>> 16) ^^^ ((a ^^^ b) >>> 18) ^^^ ((a ^^^ b) >>> 19) ^^^ ((a ^^^ b) >>> 21)
      = ((a >>> 16) ^^^ (a >>> 18) ^^^ (a >>> 19) ^^^ (a >>> 21)) ^^^
        ((b >>> 16) ^^^ (b >>> 18) ^^^ (b >>> 19) ^^^ (b >>> 21)) := by
    simp only [xor_shiftRight]
    ac_rfl
  rw [hv, xor_shiftLeft, show (4294967296 : Nat) = 2 ^ 32 by norm_num, xor_mod_two_pow,
      xor_shiftRight a b 1]
  exact xor_regroup4 _ _ _ _

set_option maxHeartbeats 1000000 in
theorem prngChunk_xor (k a b : Nat) (hk : k ≤ 32) (ha : a < 2 ^ 32) (hb : b < 2 ^ 32) :
    prngChunk k (a ^^^ b) = prngChunk k a ^^^ prngChunk k b := by
  have hab : a ^^^ b < 2 ^ 32 := Nat.xor_lt_two_pow ha hb
  simp only [prngChunk]
  rw [lor_disjoint _ _ (32 - k) (shiftRight_lt_pow _ k hab hk),
      lor_disjoint _ _ (32 - k) (shiftRight_lt_pow _ k ha hk),
      lor_disjoint _ _ (32 - k) (shiftRight_lt_pow _ k hb hk)]
  rw [show (4294967296 : Nat) = 2 ^ 32 by norm_num]
  simp only [xor_shiftRight, Nat.and_xor_distrib_right, xor_shiftLeft, xor_mod_two_pow]
  ac_rfl

theorem prngIter_xor (n : Nat) :
    ∀ a b, a < 2 ^ 32 → b < 2 ^ 32 → prngIter n (a ^^^ b) = prngIter n a ^^^ prngIter n b := by
  induction n with
  | zero => intro a b _ _; rfl
  | succ n ih =>
    intro a b ha hb
    show prngIter n (prngStep (a ^^^ b)) = prngIter n (prngStep a) ^^^ prngIter n (prngStep b)
    rw [prngStep_xor a b ha hb]
    exact ih _ _ (prngStep_lt a ha) (prngStep_lt b hb)

theorem prngBlock_xor (a b : Nat) (ha : a < 2 ^ 32) (hb : b < 2 ^ 32) :
    prngBlock (a ^^^ b) = prngBlock a ^^^ prngBlock b := by
  unfold prngBlock
  rw [prngChunk_xor 11 a b (by omega) ha hb,
      prngChunk_xor 11 _ _ (by omega) (prngChunk_lt 11 a ha) (prngChunk_lt 11 b hb),
      prngChunk_xor 10 _ _ (by omega)
        (prngChunk_lt 11 _ (prngChunk_lt 11 a ha)) (prngChunk_lt 11 _ (prngChunk_lt 11 b hb))]

set_option maxRecDepth 8192 in
theorem prngBlock_basis : ∀ j, j < 32 → prngBlock (2 ^ j) = prngIter 32 (2 ^ j) := by
  decide

set_option maxRecDepth 8192 in
/-- One 32-clock block of `Crypto1PRNG` equals 32 single PRNG steps. -/
theorem prngBlock_eq (x : Nat) (hx : x < 2 ^ 32) : prngBlock x = prngIter 32 x :=
  @linearExt prngBlock (prngIter 32) 32 prngBlock_xor (prngIter_xor 32) (by decide)
    prngBlock_basis x hx

theorem prngIter_add (m n x : Nat) : prngIter (m + n) x = prngIter n (prngIter m x) := by
  induction m generalizing x with
  | zero => simp [prngIter]
  | succ m ih =>
    have h : m + 1 + n = (m + n) + 1 := by omega
    rw [h]
    show prngIter (m + n) (prngStep x) = prngIter n (prngIter m (prngStep x))
    exact ih (prngStep x)

theorem prngBlock_lt (x : Nat) (hx : x < 2 ^ 32) : prngBlock x < 2 ^ 32 :=
  prngChunk_lt 10 _ (prngChunk_lt 11 _ (prngChunk_lt 11 _ hx))

theorem prngLoop_eq (cc : Nat) :
    ∀ t, t < 2 ^ 32 → prngLoop cc t = prngIter (32 * (cc / 32)) t := by
  induction cc using Nat.strong_induction_on with
  | _ cc ih =>
    intro t ht
    rw [prngLoop]
    by_cases h : 32 ≤ cc
    · rw [if_pos h]
      rw [ih (cc - 32) (by omega) (prngBlock t) (prngBlock_lt t ht)]
      rw [prngBlock_eq t ht, ← prngIter_add]
      congr 1
      omega
    · rw [if_neg h]
      have : cc / 32 = 0 := Nat.div_eq_of_lt (by omega)
      rw [this]
      rfl

theorem and_ff_of_lt (a : Nat) (ha : a < 256) : a &&& 0xFF = a := by
  rw [show (0xFF : Nat) = 2 ^ 8 - 1 by norm_num, Nat.and_pow_two_sub_one_eq_mod,
      Nat.mod_eq_of_lt ha]

theorem shl_and_ff (b k : Nat) (hk : 8 ≤ k) : (b <<< k) &&& 0xFF = 0 := by
  rw [show (0xFF : Nat) = 2 ^ 8 - 1 by norm_num, Nat.and_pow_two_sub_one_eq_mod,
      Nat.shiftLeft_eq]
  have h : b * 2 ^ k = (b * 2 ^ (k - 8)) * 2 ^ 8 := by
    rw [Nat.mul_assoc, ← Nat.pow_add]
    congr 2
    omega
  rw [h, Nat.mul_mod_left]

theorem shl_shr_sub (b j k : Nat) (h : k ≤ j) : (b <<< j) >>> k = b <<< (j - k) := by
  rw [Nat.shiftLeft_eq, Nat.shiftRight_eq_div_pow, Nat.shiftLeft_eq]
  have hj : (2 : Nat) ^ j = 2 ^ (j - k) * 2 ^ k := by
    rw [← Nat.pow_add]
    congr 1
    omega
  rw [hj, ← Nat.mul_assoc, Nat.mul_div_cancel _ (Nat.pos_pow_of_pos k (by omega))]

theorem shr_eq_zero (a k : Nat) (h : a < 2 ^ k) : a >>> k = 0 := by
  rw [Nat.shiftRight_eq_div_pow]
  exact Nat.div_eq_of_lt h

/-- Unpacking the packed little-endian `uint32_t` recovers the four bytes. -/
theorem unpack_pack (s0 s1 s2 s3 : Nat)
    (h0 : s0 < 256) (h1 : s1 < 256) (h2 : s2 < 256) (h3 : s3 < 256) :
    ((s0 ||| (s1 <<< 8) ||| (s2 <<< 16) ||| (s3 <<< 24)) &&& 0xFF = s0) ∧
    (((s0 ||| (s1 <<< 8) ||| (s2 <<< 16) ||| (s3 <<< 24)) >>> 8) &&& 0xFF = s1) ∧
    (((s0 ||| (s1 <<< 8) ||| (s2 <<< 16) ||| (s3 <<< 24)) >>> 16) &&& 0xFF = s2) ∧
    (((s0 ||| (s1 <<< 8) ||| (s2 <<< 16) ||| (s3 <<< 24)) >>> 24) &&& 0xFF = s3) := by
  have hb0 : s0 < 2 ^ 8 := by omega
  have hb08 : s0 < 2 ^ 16 := by omega
  have hb024 : s0 < 2 ^ 24 := by omega
  refine ⟨?_, ?_, ?_, ?_⟩
  · simp only [Nat.and_distrib_right]
    rw [and_ff_of_lt s0 h0, shl_and_ff s1 8 (by omega), shl_and_ff s2 16 (by omega),
        shl_and_ff s3 24 (by omega)]
    simp
  · simp only [lor_shiftRight]
    rw [shr_eq_zero s0 8 hb0, shl_shr_sub s1 8 8 (by omega), shl_shr_sub s2 16 8 (by omega),
        shl_shr_sub s3 24 8 (by omega)]
    simp only [Nat.shiftLeft_zero, Nat.zero_or]
    show (s1 ||| s2 <<< 8 ||| s3 <<< 16) &&& 0xFF = s1
    simp only [Nat.and_distrib_right]
    rw [and_ff_of_lt s1 h1, shl_and_ff s2 8 (by omega), shl_and_ff s3 16 (by omega)]
    simp
  · simp only [lor_shiftRight]
    rw [shr_eq_zero s0 16 hb08]
    have hs1 : (s1 <<< 8) >>> 16 = 0 := by
      apply shr_eq_zero
      rw [Nat.shiftLeft_eq]
      calc s1 * 2 ^ 8 < 256 * 2 ^ 8 := by
            apply Nat.mul_lt_mul_right (by norm_num) |>.mpr h1
      _ ≤ 2 ^ 16 := by norm_num
    rw [hs1, shl_shr_sub s2 16 16 (by omega), shl_shr_sub s3 24 16 (by omega)]
    simp only [Nat.shiftLeft_zero, Nat.zero_or, Nat.or_zero]
    show (s2 ||| s3 <<< 8) &&& 0xFF = s2
    simp only [Nat.and_distrib_right]
    rw [and_ff_of_lt s2 h2, shl_and_ff s3 8 (by omega)]
    simp
  · simp only [lor_shiftRight]
    rw [shr_eq_zero s0 24 hb024]
    have hs1 : (s1 <<< 8) >>> 24 = 0 := by
      apply shr_eq_zero
      rw [Nat.shiftLeft_eq]
      calc s1 * 2 ^ 8 < 256 * 2 ^ 8 := by
            apply Nat.mul_lt_mul_right (by norm_num) |>.mpr h1
      _ ≤ 2 ^ 24 := by norm_num
    have hs2 : (s2 <<< 16) >>> 24 = 0 := by
      apply shr_eq_zero
      rw [Nat.shiftLeft_eq]
      calc s2 * 2 ^ 16 < 256 * 2 ^ 16 := by
            apply Nat.mul_lt_mul_right (by norm_num) |>.mpr h2
      _ ≤ 2 ^ 24 := by norm_num
    rw [hs1, hs2, shl_shr_sub s3 24 24 (by omega)]
    simp only [Nat.shiftLeft_zero, Nat.zero_or, Nat.or_zero]
    exact and_ff_of_lt s3 h3

theorem pack_lt (s0 s1 s2 s3 : Nat)
    (h0 : s0 < 256) (h1 : s1 < 256) (h2 : s2 < 256) (h3 : s3 < 256) :
    s0 ||| (s1 <<< 8) ||| (s2 <<< 16) ||| (s3 <<< 24) < 2 ^ 32 := by
  have e1 : s1 <<< 8 < 2 ^ 32 := by
    rw [Nat.shiftLeft_eq]
    calc s1 * 2 ^ 8 < 256 * 2 ^ 8 := Nat.mul_lt_mul_right (by norm_num) |>.mpr h1
    _ ≤ 2 ^ 32 := by norm_num
  have e2 : s2 <<< 16 < 2 ^ 32 := by
    rw [Nat.shiftLeft_eq]
    calc s2 * 2 ^ 16 < 256 * 2 ^ 16 := Nat.mul_lt_mul_right (by norm_num) |>.mpr h2
    _ ≤ 2 ^ 32 := by norm_num
  have e3 : s3 <<< 24 < 2 ^ 32 := by
    rw [Nat.shiftLeft_eq]
    calc s3 * 2 ^ 24 < 256 * 2 ^ 24 := Nat.mul_lt_mul_right (by norm_num) |>.mpr h3
    _ ≤ 2 ^ 32 := by norm_num
  have e0 : s0 < 2 ^ 32 := by omega
  exact Nat.or_lt_two_pow (Nat.or_lt_two_pow (Nat.or_lt_two_pow e0 e1) e2) e3

/-- C10: `Crypto1PRNG` advances the packed 32-bit register by exactly
`32 * (ClockCount / 32)` applications of the single PRNG successor step (the
step of `prng_successor`'s internal loop, which operates on the byte-swapped
word — i.e. exactly on the little-endian packed `Temp`); in particular, for
any `ClockCount` below 32 the state bytes are returned unchanged. -/
theorem Crypto1PRNG_eq (s0 s1 s2 s3 cc : Nat)
    (h0 : s0 < 256) (h1 : s1 < 256) (h2 : s2 < 256) (h3 : s3 < 256) :
    (Crypto1PRNG s0 s1 s2 s3 cc =
      (prngIter (32 * (cc / 32)) (s0 ||| (s1 <<< 8) ||| (s2 <<< 16) ||| (s3 <<< 24)) &&& 0xFF,
       (prngIter (32 * (cc / 32)) (s0 ||| (s1 <<< 8) ||| (s2 <<< 16) ||| (s3 <<< 24)) >>> 8) &&& 0xFF,
       (prngIter (32 * (cc / 32)) (s0 ||| (s1 <<< 8) ||| (s2 <<< 16) ||| (s3 <<< 24)) >>> 16) &&& 0xFF,
       (prngIter (32 * (cc / 32)) (s0 ||| (s1 <<< 8) ||| (s2 <<< 16) ||| (s3 <<< 24)) >>> 24) &&& 0xFF)) ∧
    (cc < 32 → Crypto1PRNG s0 s1 s2 s3 cc = (s0, s1, s2, s3)) := by
  have hpack := pack_lt s0 s1 s2 s3 h0 h1 h2 h3
  have hloop := prngLoop_eq cc _ hpack
  constructor
  · simp only [Crypto1PRNG]
    rw [hloop]
  · intro hcc
    simp only [Crypto1PRNG]
    rw [hloop]
    have hdiv : cc / 32 = 0 := Nat.div_eq_of_lt (by omega)
    rw [hdiv]
    show ((s0 ||| (s1 <<< 8) ||| (s2 <<< 16) ||| (s3 <<< 24)) &&& 0xFF,
      ((s0 ||| (s1 <<< 8) ||| (s2 <<< 16) ||| (s3 <<< 24)) >>> 8) &&& 0xFF,
      ((s0 ||| (s1 <<< 8) ||| (s2 <<< 16) ||| (s3 <<< 24)) >>> 16) &&& 0xFF,
      ((s0 ||| (s1 <<< 8) ||| (s2 <<< 16) ||| (s3 <<< 24)) >>> 24) &&& 0xFF) = (s0, s1, s2, s3)
    obtain ⟨e0, e1, e2, e3⟩ := unpack_pack s0 s1 s2 s3 h0 h1 h2 h3
    rw [e0, e1, e2, e3]

/-!
### C6 — the table-driven filter equals the bit-math filter
-/

instance : Std.Associative (fun a b : Nat => a ||| b) := ⟨Nat.or_assoc⟩

instance : Std.Commutative (fun a b : Nat => a ||| b) := ⟨Nat.or_comm⟩

theorem rev4_lt (n : Nat) : rev4 n < 16 := by
  show rev4 n < 2 ^ 4
  unfold rev4
  have h3 := bit_le_one n 3
  have h2 := bit_le_one n 2
  have h1 := bit_le_one n 1
  have h0 := bit_le_one n 0
  apply Nat.or_lt_two_pow
  apply Nat.or_lt_two_pow
  apply Nat.or_lt_two_pow
  · omega
  · rw [Nat.shiftLeft_eq]; omega
  · rw [Nat.shiftLeft_eq]; omega
  · rw [Nat.shiftLeft_eq]
    have : (2 : Nat) ^ 3 = 8 := by norm_num
    omega

theorem rev8_lt (b : Nat) : rev8 b < 256 := by
  show rev8 b < 2 ^ 8
  unfold rev8
  apply Nat.or_lt_two_pow
  · have := rev4_lt (b >>> 4); omega
  · rw [Nat.shiftLeft_eq]
    have := rev4_lt (b &&& 0xf)
    have h : (2 : Nat) ^ 4 = 16 := by norm_num
    have h8 : (2 : Nat) ^ 8 = 256 := by norm_num
    omega

theorem and_mask_lt (a n : Nat) (h : a < 2 ^ n) : a &&& (2 ^ n - 1) = a :=
  Nat.and_pow_two_sub_one_of_lt_two_pow h

theorem shl_and_mask (b k n : Nat) (hk : n ≤ k) : (b <<< k) &&& (2 ^ n - 1) = 0 := by
  rw [Nat.and_pow_two_sub_one_eq_mod, Nat.shiftLeft_eq]
  have h : b * 2 ^ k = (b * 2 ^ (k - n)) * 2 ^ n := by
    rw [Nat.mul_assoc, ← Nat.pow_add]
    congr 2
    omega
  rw [h, Nat.mul_mod_left]

theorem shl_shr_gt (b j k : Nat) (h : j ≤ k) : (b <<< j) >>> k = b >>> (k - j) := by
  rw [Nat.shiftLeft_eq, Nat.shiftRight_eq_div_pow, Nat.shiftRight_eq_div_pow]
  rw [show (2 : Nat) ^ k = 2 ^ j * 2 ^ (k - j) by rw [← Nat.pow_add]; congr 1; omega]
  rw [← Nat.div_div_eq_div_mul, Nat.mul_div_cancel _ (Nat.pos_pow_of_pos j (by omega))]

theorem rev8_and15 (b : Nat) : rev8 b &&& 15 = rev4 (b >>> 4) := by
  unfold rev8
  rw [show (15 : Nat) = 2 ^ 4 - 1 by norm_num, Nat.and_distrib_right,
      and_mask_lt _ 4 (rev4_lt _), shl_and_mask _ 4 4 (by omega)]
  simp

theorem rev8_shr4 (b : Nat) : rev8 b >>> 4 = rev4 (b &&& 0xf) := by
  unfold rev8
  rw [lor_shiftRight, shr_eq_zero _ 4 (rev4_lt _), shl_shr_sub _ 4 4 (by omega),
      Nat.shiftLeft_zero]
  simp

theorem pack24_nib0 (O0 O1 O2 : Nat) : pack24 O0 O1 O2 &&& 15 = rev4 (O2 >>> 4) := by
  unfold pack24
  rw [show (15 : Nat) = 2 ^ 4 - 1 by norm_num]
  simp only [Nat.and_distrib_right]
  rw [shl_and_mask _ 16 4 (by omega), shl_and_mask _ 8 4 (by omega)]
  rw [show ((2 : Nat) ^ 4 - 1) = 15 by norm_num, rev8_and15]
  simp

theorem pack24_nib1 (O0 O1 O2 : Nat) : (pack24 O0 O1 O2 >>> 4) &&& 15 = rev4 (O2 &&& 0xf) := by
  unfold pack24
  simp only [lor_shiftRight]
  rw [shl_shr_sub _ 16 4 (by omega), shl_shr_sub _ 8 4 (by omega), rev8_shr4]
  rw [show (15 : Nat) = 2 ^ 4 - 1 by norm_num]
  simp only [Nat.and_distrib_right]
  rw [shl_and_mask _ 12 4 (by omega), shl_and_mask _ 4 4 (by omega),
      and_mask_lt _ 4 (rev4_lt _)]
  simp

theorem pack24_nib2 (O0 O1 O2 : Nat) : (pack24 O0 O1 O2 >>> 8) &&& 15 = rev4 (O1 >>> 4) := by
  unfold pack24
  simp only [lor_shiftRight]
  rw [shl_shr_sub _ 16 8 (by omega), shl_shr_sub _ 8 8 (by omega), Nat.shiftLeft_zero,
      shr_eq_zero (rev8 O2) 8 (rev8_lt _)]
  rw [show (15 : Nat) = 2 ^ 4 - 1 by norm_num]
  simp only [Nat.and_distrib_right]
  rw [shl_and_mask _ 8 4 (by omega)]
  rw [show ((2 : Nat) ^ 4 - 1) = 15 by norm_num, rev8_and15]
  simp

theorem pack24_nib3 (O0 O1 O2 : Nat) : (pack24 O0 O1 O2 >>> 12) &&& 15 = rev4 (O1 &&& 0xf) := by
  unfold pack24
  simp only [lor_shiftRight]
  rw [shl_shr_sub _ 16 12 (by omega), shl_shr_gt _ 8 12 (by omega), rev8_shr4,
      shr_eq_zero (rev8 O2) 12 (lt_trans (rev8_lt _) (by norm_num))]
  rw [show (15 : Nat) = 2 ^ 4 - 1 by norm_num]
  simp only [Nat.and_distrib_right]
  rw [shl_and_mask _ 4 4 (by omega), and_mask_lt _ 4 (rev4_lt _)]
  simp

theorem pack24_nib4 (O0 O1 O2 : Nat) : (pack24 O0 O1 O2 >>> 16) &&& 15 = rev4 (O0 >>> 4) := by
  unfold pack24
  simp only [lor_shiftRight]
  rw [shl_shr_sub _ 16 16 (by omega), Nat.shiftLeft_zero, shl_shr_gt _ 8 16 (by omega),
      shr_eq_zero (rev8 O1) 8 (rev8_lt _),
      shr_eq_zero (rev8 O2) 16 (lt_trans (rev8_lt _) (by norm_num))]
  rw [show (15 : Nat) = 2 ^ 4 - 1 by norm_num]
  simp only [Nat.and_distrib_right]
  rw [show ((2 : Nat) ^ 4 - 1) = 15 by norm_num, rev8_and15]
  simp

set_option maxRecDepth 8192 in
theorem tbl0_eq : ∀ b, b < 256 →
    abFilterTable0.getD b 0 = (0x0d938 >>> rev4 (b >>> 4)) &&& 1 := by
  decide

set_option maxRecDepth 8192 in
theorem tbl1_eq : ∀ b, b < 256 →
    abFilterTable1.getD b 0 =
      ((0x3c8b0 >>> rev4 (b >>> 4)) &&& 4) ||| ((0x1e458 >>> rev4 (b &&& 0xf)) &&& 2) := by
  decide

set_option maxRecDepth 8192 in
theorem tbl2_eq : ∀ b, b < 256 →
    abFilterTable2.getD b 0 =
      ((0xf22c0 >>> rev4 (b >>> 4)) &&& 16) ||| ((0x6c9c0 >>> rev4 (b &&& 0xf)) &&& 8) := by
  decide

theorem tblC0_eq : ∀ i, i < 32 → TableC0.getD i 0 = bit 0xEC57E80A i := by
  decide

theorem tblC3_eq : ∀ i, i < 32 → TableC3.getD i 0 = bit 0xEC57E80A i <<< 3 := by
  decide

theorem tblC7_eq : ∀ i, i < 32 → TableC7.getD i 0 = bit 0xEC57E80A i <<< 7 := by
  decide

theorem filterIdx_pack (O0 O1 O2 : Nat) (h0 : O0 < 256) (h1 : O1 < 256) (h2 : O2 < 256) :
    abFilterTable0.getD O0 0 ||| abFilterTable1.getD O1 0 ||| abFilterTable2.getD O2 0 =
      filterIdx (pack24 O0 O1 O2) := by
  rw [tbl0_eq O0 h0, tbl1_eq O1 h1, tbl2_eq O2 h2]
  simp only [filterIdx]
  rw [show (0xf : Nat) = 15 by norm_num, pack24_nib0, pack24_nib1, pack24_nib2,
      pack24_nib3, pack24_nib4]
  ac_rfl

theorem filterTables_lt (O0 O1 O2 : Nat) (h0 : O0 < 256) (h1 : O1 < 256) (h2 : O2 < 256) :
    abFilterTable0.getD O0 0 ||| abFilterTable1.getD O1 0 ||| abFilterTable2.getD O2 0 < 32 := by
  rw [tbl0_eq O0 h0, tbl1_eq O1 h1, tbl2_eq O2 h2]
  show _ < 2 ^ 5
  have a1 := Nat.and_le_right (n := 0x0d938 >>> rev4 (O0 >>> 4)) (m := 1)
  have a4 := Nat.and_le_right (n := 0x3c8b0 >>> rev4 (O1 >>> 4)) (m := 4)
  have a2 := Nat.and_le_right (n := 0x1e458 >>> rev4 (O1 &&& 0xf)) (m := 2)
  have a16 := Nat.and_le_right (n := 0xf22c0 >>> rev4 (O2 >>> 4)) (m := 16)
  have a8 := Nat.and_le_right (n := 0x6c9c0 >>> rev4 (O2 &&& 0xf)) (m := 8)
  apply Nat.or_lt_two_pow
  apply Nat.or_lt_two_pow
  · omega
  · exact Nat.or_lt_two_pow (by omega) (by omega)
  · exact Nat.or_lt_two_pow (by omega) (by omega)

/-- C6: the table-driven filter agrees with the bit-math `filter` on every
24-bit odd half: `TableC0[t0[O0] | t1[O1] | t2[O2]]` equals `filter` of the
packed odd value representing the same logical LFSR odd half (bit `j` of the
byte-split value is bit `23 - j` of the packed one), and the `TableC3` /
`TableC7` variants return that bit shifted to positions 3 and 7. -/
theorem filter_table_equiv (O0 O1 O2 : Nat) (h0 : O0 < 256) (h1 : O1 < 256) (h2 : O2 < 256) :
    filterB0 O0 O1 O2 = filter (pack24 O0 O1 O2) ∧
    filterB3 O0 O1 O2 = filter (pack24 O0 O1 O2) <<< 3 ∧
    filterB7 O0 O1 O2 = filter (pack24 O0 O1 O2) <<< 7 := by
  have hlt := filterTables_lt O0 O1 O2 h0 h1 h2
  have heq := filterIdx_pack O0 O1 O2 h0 h1 h2
  refine ⟨?_, ?_, ?_⟩
  · show TableC0.getD _ 0 = _
    rw [tblC0_eq _ hlt, heq]
    rfl
  · show TableC3.getD _ 0 = _
    rw [tblC3_eq _ hlt, heq]
    rfl
  · show TableC7.getD _ 0 = _
    rw [tblC7_eq _ hlt, heq]
    rfl

/-- Witness for C6 at concrete bytes. -/
theorem filter_table_equiv_witness :
    filterB0 0x12 0x34 0x56 = filter (pack24 0x12 0x34 0x56) ∧
    filterB3 0x12 0x34 0x56 = filter (pack24 0x12 0x34 0x56) <<< 3 ∧
    filterB7 0x12 0x34 0x56 = filter (pack24 0x12 0x34 0x56) <<< 7 :=
  filter_table_equiv 0x12 0x34 0x56 (by norm_num) (by norm_num) (by norm_num)

/-!
### C4 — rollback inverts the forward clock
-/

theorem or31_mod32 (t p : Nat) (ht : t < 2 ^ 31) (hp : p ≤ 1) :
    ((t <<< 1) ||| p) % 4294967296 = (t <<< 1) ||| p := by
  apply Nat.mod_eq_of_lt
  have h1 : t <<< 1 < 2 ^ 32 := shiftLeft_one_lt t 31 ht
  have h2 : p < 2 ^ 32 := lt_of_le_of_lt hp (by norm_num)
  calc (t <<< 1) ||| p < 2 ^ 32 := Nat.or_lt_two_pow h1 h2
  _ ≤ 4294967296 := by norm_num

theorem or1_mod_lt (t p n : Nat) (ht : t < 2 ^ n) (hp : p ≤ 1) :
    ((t <<< 1) ||| p) % 4294967296 < 2 ^ (n + 1) := by
  apply lt_of_le_of_lt (Nat.mod_le _ _)
  apply Nat.or_lt_two_pow (shiftLeft_one_lt _ _ ht)
  have h2 : (2 : Nat) ≤ 2 ^ (n + 1) := by
    calc (2 : Nat) = 2 ^ 1 := by norm_num
    _ ≤ 2 ^ (n + 1) := Nat.pow_le_pow_right (by omega) (by omega)
  omega

theorem shiftl1_or_shr1 (t p : Nat) (hp : p ≤ 1) : ((t <<< 1) ||| p) >>> 1 = t := by
  rw [shiftLeft_one_lor_eq_xor t p hp, xor_shiftRight, shl_shr_sub t 1 1 (by omega),
      shr_eq_zero p 1 (by omega)]
  simp

theorem rollback_state (o e p r : Nat) (enc : Bool) (ho : o < 2 ^ 31) (hp : p ≤ 1) :
    lfsr_rollback_bit ⟨e, ((o <<< 1) ||| p) % 4294967296⟩ r enc = (filter o, ⟨o, e⟩) := by
  unfold lfsr_rollback_bit
  simp only []
  rw [or31_mod32 _ _ ho hp, shiftl1_or_shr1 _ _ hp]

/-- The modelled rollback undoes one forward clock (C4, bit level). -/
theorem rollback_bit_inv (s : Crypto1State) (inb : Nat) (enc : Bool)
    (ho : s.odd < 2 ^ 31) :
    lfsr_rollback_bit (crypto1_bit s inb enc).2 inb enc = ((crypto1_bit s inb enc).1, s) :=
  rollback_state s.odd s.even
    (evenparity32 ((((filter s.odd &&& (if enc then 1 else 0)) ^^^ (if inb = 0 then 0 else 1)) ^^^
      (LF_POLY_ODD &&& s.odd)) ^^^ (LF_POLY_EVEN &&& s.even)))
    inb enc ho (evenparity32_le_one _)

theorem fwd_bwd (enc : Bool) :
    ∀ (l : List Nat) (s : Crypto1State), okB enc s l →
      bwdList enc (fwdList enc s l).2 l = ((fwdList enc s l).1, s) := by
  intro l
  induction l with
  | nil => intro s _; rfl
  | cons b r ih =>
    intro s hok
    obtain ⟨h31, hrest⟩ := hok
    simp only [fwdList, bwdList]
    rw [ih (crypto1_bit s b enc).2 hrest]
    rw [rollback_bit_inv s b enc h31]

theorem okB_of_bounds (enc : Bool) :
    ∀ (l : List Nat) (s : Crypto1State) (a b : Nat),
      s.odd < 2 ^ a → s.even < 2 ^ b → boundsOk a b l.length → okB enc s l := by
  intro l
  induction l with
  | nil => intro s a b _ _ _; trivial
  | cons c r ih =>
    intro s a b ho he hbk
    obtain ⟨ha31, hrest⟩ := hbk
    refine ⟨lt_of_lt_of_le ho (Nat.pow_le_pow_right (by omega) ha31), ?_⟩
    apply ih _ b (a + 1) he ?_ hrest
    show ((s.odd <<< 1) ||| evenparity32 _) % 4294967296 < 2 ^ (a + 1)
    exact or1_mod_lt _ _ a ho (evenparity32_le_one _)

theorem foldl_fwd (enc : Bool) (pos inp : Nat → Nat) :
    ∀ (idxs : List Nat) (s : Crypto1State) (acc : Nat),
      idxs.foldl (fun p i =>
        let r := crypto1_bit p.2 (inp i) enc
        (p.1 ||| (r.1 <<< pos i), r.2)) (acc, s)
      = (acc ||| packAt (idxs.map pos) (fwdList enc s (idxs.map inp)).1,
         (fwdList enc s (idxs.map inp)).2) := by
  intro idxs
  induction idxs with
  | nil => intro s acc; simp [packAt, fwdList]
  | cons i r ih =>
    intro s acc
    rw [List.foldl_cons]
    show (List.foldl _ (acc ||| ((crypto1_bit s (inp i) enc).1 <<< pos i),
      (crypto1_bit s (inp i) enc).2) r) = _
    rw [ih (crypto1_bit s (inp i) enc).2 (acc ||| ((crypto1_bit s (inp i) enc).1 <<< pos i))]
    simp only [List.map_cons, fwdList, packAt]
    rw [Nat.or_assoc]

theorem foldl_bwd (fb : Bool) (pos inp : Nat → Nat) :
    ∀ (idxs : List Nat) (s : Crypto1State) (acc : Nat),
      (idxs.reverse).foldl (fun p i =>
        let r := lfsr_rollback_bit p.2 (inp i) fb
        (p.1 ||| (r.1 <<< pos i), r.2)) (acc, s)
      = (acc ||| packAt (idxs.map pos) (bwdList fb s (idxs.map inp)).1,
         (bwdList fb s (idxs.map inp)).2) := by
  intro idxs
  induction idxs with
  | nil => intro s acc; simp [packAt, bwdList]
  | cons i r ih =>
    intro s acc
    rw [List.reverse_cons, List.foldl_append]
    rw [ih s acc]
    simp only [List.foldl_cons, List.foldl_nil, List.map_cons, bwdList, packAt]
    rw [Nat.or_assoc, Nat.or_comm (packAt _ _)]

/-- C4 amended: the rollback-inverse law at the three widths.  The bit lift
inverts whenever the odd half is below `2^31`; the byte lift inverts from
every 24-bit state; the word lift only inverts when both halves are below
`2^16`, because `crypto1_word` shifts the upper state bits out of the 32-bit
registers. -/
theorem rollback_inverse :
    (∀ (s : Crypto1State) (inb : Nat) (fb : Bool), s.odd < 2 ^ 31 →
      lfsr_rollback_bit (crypto1_bit s inb fb).2 inb fb = ((crypto1_bit s inb fb).1, s)) ∧
    (∀ (s : Crypto1State) (inb : Nat) (fb : Bool), s.odd < 2 ^ 24 → s.even < 2 ^ 24 →
      lfsr_rollback_byte (crypto1_byte s inb fb).2 inb fb = ((crypto1_byte s inb fb).1, s)) ∧
    (∀ (s : Crypto1State) (inw : Nat) (fb : Bool), s.odd < 2 ^ 16 → s.even < 2 ^ 16 →
      lfsr_rollback_word (crypto1_word s inw fb).2 inw fb = ((crypto1_word s inw fb).1, s)) := by
  refine ⟨rollback_bit_inv, ?_, ?_⟩
  · intro s inb fb ho he
    have hfwd : crypto1_byte s inb fb =
        (0 ||| packAt ((List.range 8).map (fun i => i))
          (fwdList fb s ((List.range 8).map (fun i => bit inb i))).1,
         (fwdList fb s ((List.range 8).map (fun i => bit inb i))).2) :=
      foldl_fwd fb (fun i => i) (fun i => bit inb i) (List.range 8) s 0
    have hok : okB fb s ((List.range 8).map (fun i => bit inb i)) := by
      apply okB_of_bounds fb _ s 24 24 ho he
      simp only [List.length_map, List.length_range]
      norm_num [boundsOk]
    have hbwd : lfsr_rollback_byte (fwdList fb s ((List.range 8).map (fun i => bit inb i))).2 inb fb =
        (0 ||| packAt ((List.range 8).map (fun i => i))
          (bwdList fb (fwdList fb s ((List.range 8).map (fun i => bit inb i))).2
            ((List.range 8).map (fun i => bit inb i))).1,
         (bwdList fb (fwdList fb s ((List.range 8).map (fun i => bit inb i))).2
            ((List.range 8).map (fun i => bit inb i))).2) :=
      foldl_bwd fb (fun i => i) (fun i => bit inb i) (List.range 8) _ 0
    rw [hfwd]
    show lfsr_rollback_byte _ inb fb = _
    rw [hbwd, fwd_bwd fb _ s hok]
  · intro s inw fb ho he
    have hmap : (List.range 32).map (fun i => (24 ^^^ i) &&& 0x1F) =
        (List.range 32).map (fun i => i ^^^ 24) := by decide
    have hfwd : crypto1_word s inw fb =
        (0 ||| packAt ((List.range 32).map (fun i => (24 ^^^ i) &&& 0x1F))
          (fwdList fb s ((List.range 32).map (fun i => bit inw (i ^^^ 24)))).1,
         (fwdList fb s ((List.range 32).map (fun i => bit inw (i ^^^ 24)))).2) :=
      foldl_fwd fb (fun i => (24 ^^^ i) &&& 0x1F) (fun i => bit inw (i ^^^ 24)) (List.range 32) s 0
    have hok : okB fb s ((List.range 32).map (fun i => bit inw (i ^^^ 24))) := by
      apply okB_of_bounds fb _ s 16 16 ho he
      simp only [List.length_map, List.length_range]
      norm_num [boundsOk]
    have hbwd : lfsr_rollback_word
        (fwdList fb s ((List.range 32).map (fun i => bit inw (i ^^^ 24)))).2 inw fb =
        (0 ||| packAt ((List.range 32).map (fun i => i ^^^ 24))
          (bwdList fb (fwdList fb s ((List.range 32).map (fun i => bit inw (i ^^^ 24)))).2
            ((List.range 32).map (fun i => bit inw (i ^^^ 24)))).1,
         (bwdList fb (fwdList fb s ((List.range 32).map (fun i => bit inw (i ^^^ 24)))).2
            ((List.range 32).map (fun i => bit inw (i ^^^ 24)))).2) :=
      foldl_bwd fb (fun i => i ^^^ 24) (fun i => bit inw (i ^^^ 24)) (List.range 32) _ 0
    rw [hfwd]
    show lfsr_rollback_word _ inw fb = _
    rw [hbwd, fwd_bwd fb _ s hok, hmap]

set_option maxRecDepth 8192 in
/-- C4 counterexample: the word-level law fails as stated — from the valid
24-bit state `odd = 0x800000, even = 0`, rolling back `crypto1_word` does not
restore the state (bit 23 of the odd half is shifted out of the `uint32_t`
during the 32 clocks and lost). -/
theorem rollback_word_counterexample :
    ¬ (lfsr_rollback_word (crypto1_word ⟨0x800000, 0⟩ 0 false).2 0 false =
       ((crypto1_word ⟨0x800000, 0⟩ 0 false).1, ⟨0x800000, 0⟩)) := by
  decide

set_option maxRecDepth 8192 in
/-- Witness for C4's amended theorem at concrete inputs. -/
theorem rollback_inverse_witness :
    lfsr_rollback_bit (crypto1_bit ⟨1, 2⟩ 1 true).2 1 true = ((crypto1_bit ⟨1, 2⟩ 1 true).1, ⟨1, 2⟩) ∧
    lfsr_rollback_byte (crypto1_byte ⟨3, 4⟩ 0xAB true).2 0xAB true =
      ((crypto1_byte ⟨3, 4⟩ 0xAB true).1, ⟨3, 4⟩) ∧
    lfsr_rollback_word (crypto1_word ⟨5, 6⟩ 0xDEADBEEF false).2 0xDEADBEEF false =
      ((crypto1_word ⟨5, 6⟩ 0xDEADBEEF false).1, ⟨5, 6⟩) :=
  ⟨rollback_inverse.1 ⟨1, 2⟩ 1 true (by norm_num),
   rollback_inverse.2.1 ⟨3, 4⟩ 0xAB true (by norm_num) (by norm_num),
   rollback_inverse.2.2 ⟨5, 6⟩ 0xDEADBEEF false (by norm_num) (by norm_num)⟩

/-- Witness for C10 at concrete bytes and clock count. -/
theorem Crypto1PRNG_eq_witness :
    Crypto1PRNG 1 2 3 4 33 =
      (prngIter 32 (1 ||| (2 <<< 8) ||| (3 <<< 16) ||| (4 <<< 24)) &&& 0xFF,
       (prngIter 32 (1 ||| (2 <<< 8) ||| (3 <<< 16) ||| (4 <<< 24)) >>> 8) &&& 0xFF,
       (prngIter 32 (1 ||| (2 <<< 8) ||| (3 <<< 16) ||| (4 <<< 24)) >>> 16) &&& 0xFF,
       (prngIter 32 (1 ||| (2 <<< 8) ||| (3 <<< 16) ||| (4 <<< 24)) >>> 24) &&& 0xFF) ∧
    Crypto1PRNG 1 2 3 4 7 = (1, 2, 3, 4) := by
  constructor
  · have h := (Crypto1PRNG_eq 1 2 3 4 33 (by norm_num) (by norm_num) (by norm_num) (by norm_num)).1
    simpa using h
  · exact (Crypto1PRNG_eq 1 2 3 4 7 (by norm_num) (by norm_num) (by norm_num) (by norm_num)).2
      (by norm_num)

/-!
### C1 — Crypto1Auth and the feedback that is thrown away
-/

set_option maxRecDepth 20000 in
/-- C1: refuted.  `Crypto1Auth` does NOT advance the state as 32 forward
clocks with `is_encrypted = true`: line 530 of mf1_crypto1.c computes
`Feedback ^= Feedback ^ (In & 1)`, which reduces to `In & 1`, so the filter
output and the LFSR tap parity are both discarded and the register shifts in
the raw ciphertext bit.  From the state with `Even[0] = 1` (all other bytes
zero) and the all-zero encrypted reader nonce, the code's state diverges from
the reference that feeds `taps XOR filter XOR ciphertext bit`. -/
theorem Crypto1Auth_discards_feedback :
    Crypto1Auth ⟨1, 0, 0, 0, 0, 0⟩ 0 0 0 0 ≠ Crypto1AuthRef ⟨1, 0, 0, 0, 0, 0⟩ 0 0 0 0 := by
  decide

/-!
### C5 — nested-auth parity bits and the reused filter output
-/

theorem shift24cd_false (b0 b1 b2 inb stream : Nat) :
    shift24cd b0 b1 b2 inb stream false = shift24 b0 b1 b2 inb := by
  simp [shift24cd, shift24]

theorem nestedBit_state (acc : Nat × Nat × Nat × SplitState) (a : Nat) :
    (nestedBit false acc a).2.2 = plainBit acc.2.2 a := by
  simp only [nestedBit, plainBit, shift24cd_false]

theorem nested_plain_list (l : List Nat) :
    ∀ acc : Nat × Nat × Nat × SplitState,
      (l.foldl (nestedBit false) acc).2.2 = l.foldl plainBit acc.2.2 := by
  induction l with
  | nil => intro acc; rfl
  | cons a t ih =>
    intro acc
    rw [List.foldl_cons, List.foldl_cons, ih, nestedBit_state]

theorem nestedByte_state (st : SplitState) (out nb ub : Nat) :
    (nestedByte false st out nb ub).2.2.2 = plainByte st (nb ^^^ ub) := by
  show (((List.range 8).foldl (nestedBit false) (0, out, nb ^^^ ub, st)).2.2).2 =
    ((List.range 8).foldl plainBit (nb ^^^ ub, st)).2
  rw [nested_plain_list]

theorem nestedByte_pout (st : SplitState) (out nb ub : Nat) :
    (nestedByte false st out nb ub).2.2.1 = Crypto1FilterOutput (plainByte st (nb ^^^ ub)) := by
  have h := nestedByte_state st out nb ub
  show Crypto1FilterOutput ((nestedByte false st out nb ub).2.2.2) = _
  rw [h]

theorem nestedByte_parity (st : SplitState) (out nb ub : Nat) :
    (nestedByte false st out nb ub).2.1 =
      oddparity8 nb ^^^ Crypto1FilterOutput (plainByte st (nb ^^^ ub)) := by
  have h := nestedByte_state st out nb ub
  show oddparity8 nb ^^^ Crypto1FilterOutput ((nestedByte false st out nb ub).2.2.2) = _
  rw [h]

theorem tblC7_low : ∀ k, k < 7 → ∀ i, (TableC7.getD i 0 >>> k) &&& 1 = 0 := by
  intro k hk i
  by_cases h : i < 32
  · exact (by decide : ∀ k, k < 7 → ∀ i, i < 32 → (TableC7.getD i 0 >>> k) &&& 1 = 0) k hk i h
  · rw [List.getD_eq_default _ _ (by simp only [show TableC7.length = 32 from rfl]; omega)]
    simp

theorem filterB7_low (a b c k : Nat) (hk : k < 7) : (filterB7 a b c >>> k) &&& 1 = 0 :=
  tblC7_low k hk _

theorem filterB7_and1 (a b c : Nat) : filterB7 a b c &&& 1 = 0 :=
  filterB7_low a b c 0 (by omega)

set_option maxHeartbeats 2000000 in
theorem nestedByte_ks1 (st : SplitState) (out nb ub : Nat) :
    (nestedByte false st out nb ub).1 &&& 1 = out &&& 1 := by
  show ((List.range 8).foldl (nestedBit false) (0, out, nb ^^^ ub, st)).1 &&& 1 = out &&& 1
  rw [show List.range 8 = [0, 1, 2, 3, 4, 5, 6, 7] from rfl]
  simp only [List.foldl_cons, List.foldl_nil]
  simp only [nestedBit]
  norm_num
  simp only [← Nat.and_one_is_mod]
  simp only [lor_shiftRight]
  simp only [← Nat.shiftRight_add, Nat.reduceAdd]
  rw [shl_shr_sub _ 7 7 (le_refl 7), Nat.shiftLeft_zero]
  simp only [Nat.and_distrib_right]
  simp only [filterB7_low, filterB7_and1, Nat.reduceLT]
  simp [Nat.and_assoc]

set_option maxHeartbeats 2000000 in
/-- C5: in `Crypto1SetupNested` with `Decrypt = false`, for every key, UID and
card nonce and each byte index `b`: the emitted `NonceParity[b]` is the odd
parity of the plaintext nonce byte XOR the filter output of the state reached
after that byte's 8 clocks (`clocked` applies only the 8 LFSR clocks per byte;
`Crypto1FilterOutput` reads the filter without clocking), and that same filter
output is reused as the first (bit-0) keystream bit of the next byte — for
byte 0 the first keystream bit is the filter output right after key load. -/
theorem Crypto1SetupNested_parity (k0 k1 k2 k3 k4 k5 u0 u1 u2 u3 n0 n1 n2 n3 : Nat) :
    ((Crypto1SetupNested k0 k1 k2 k3 k4 k5 u0 u1 u2 u3 n0 n1 n2 n3 false).p0 =
       oddparity8 n0 ^^^
         Crypto1FilterOutput (clocked (keyLoad k0 k1 k2 k3 k4 k5) [n0 ^^^ u0]) ∧
     (Crypto1SetupNested k0 k1 k2 k3 k4 k5 u0 u1 u2 u3 n0 n1 n2 n3 false).p1 =
       oddparity8 n1 ^^^
         Crypto1FilterOutput (clocked (keyLoad k0 k1 k2 k3 k4 k5) [n0 ^^^ u0, n1 ^^^ u1]) ∧
     (Crypto1SetupNested k0 k1 k2 k3 k4 k5 u0 u1 u2 u3 n0 n1 n2 n3 false).p2 =
       oddparity8 n2 ^^^
         Crypto1FilterOutput
           (clocked (keyLoad k0 k1 k2 k3 k4 k5) [n0 ^^^ u0, n1 ^^^ u1, n2 ^^^ u2]) ∧
     (Crypto1SetupNested k0 k1 k2 k3 k4 k5 u0 u1 u2 u3 n0 n1 n2 n3 false).p3 =
       oddparity8 n3 ^^^
         Crypto1FilterOutput
           (clocked (keyLoad k0 k1 k2 k3 k4 k5)
             [n0 ^^^ u0, n1 ^^^ u1, n2 ^^^ u2, n3 ^^^ u3])) ∧
    (((Crypto1SetupNested k0 k1 k2 k3 k4 k5 u0 u1 u2 u3 n0 n1 n2 n3 false).c0 ^^^ n0) &&& 1 =
       Crypto1FilterOutput (keyLoad k0 k1 k2 k3 k4 k5) &&& 1 ∧
     ((Crypto1SetupNested k0 k1 k2 k3 k4 k5 u0 u1 u2 u3 n0 n1 n2 n3 false).c1 ^^^ n1) &&& 1 =
       Crypto1FilterOutput (clocked (keyLoad k0 k1 k2 k3 k4 k5) [n0 ^^^ u0]) &&& 1 ∧
     ((Crypto1SetupNested k0 k1 k2 k3 k4 k5 u0 u1 u2 u3 n0 n1 n2 n3 false).c2 ^^^ n2) &&& 1 =
       Crypto1FilterOutput (clocked (keyLoad k0 k1 k2 k3 k4 k5) [n0 ^^^ u0, n1 ^^^ u1]) &&& 1 ∧
     ((Crypto1SetupNested k0 k1 k2 k3 k4 k5 u0 u1 u2 u3 n0 n1 n2 n3 false).c3 ^^^ n3) &&& 1 =
       Crypto1FilterOutput
         (clocked (keyLoad k0 k1 k2 k3 k4 k5) [n0 ^^^ u0, n1 ^^^ u1, n2 ^^^ u2]) &&& 1) ∧
    (Crypto1SetupNested k0 k1 k2 k3 k4 k5 u0 u1 u2 u3 n0 n1 n2 n3 false).st =
      clocked (keyLoad k0 k1 k2 k3 k4 k5) [n0 ^^^ u0, n1 ^^^ u1, n2 ^^^ u2, n3 ^^^ u3] := by
  refine ⟨⟨?_, ?_, ?_, ?_⟩, ⟨?_, ?_, ?_, ?_⟩, ?_⟩
  · simp only [Crypto1SetupNested]
    rw [nestedByte_parity]
    rfl
  · simp only [Crypto1SetupNested]
    rw [nestedByte_parity]
    simp only [nestedByte_state]
    rfl
  · simp only [Crypto1SetupNested]
    rw [nestedByte_parity]
    simp only [nestedByte_state]
    rfl
  · simp only [Crypto1SetupNested]
    rw [nestedByte_parity]
    simp only [nestedByte_state]
    rfl
  · simp only [Crypto1SetupNested]
    rw [Nat.xor_comm n0, Nat.xor_cancel_right, nestedByte_ks1]
    rfl
  · simp only [Crypto1SetupNested]
    rw [Nat.xor_comm n1, Nat.xor_cancel_right, nestedByte_ks1, nestedByte_pout]
    rfl
  · simp only [Crypto1SetupNested]
    rw [Nat.xor_comm n2, Nat.xor_cancel_right, nestedByte_ks1, nestedByte_pout]
    simp only [nestedByte_state]
    rfl
  · simp only [Crypto1SetupNested]
    rw [Nat.xor_comm n3, Nat.xor_cancel_right, nestedByte_ks1, nestedByte_pout]
    simp only [nestedByte_state]
    rfl
  · simp only [Crypto1SetupNested]
    simp only [nestedByte_state]
    rfl

end Crypto1
